import Mathlib

/-!
Verification of the minimal CLI agent (Rust sources under src/minimal/rust/src).

Shallow embedding notes:
* Rust `i32` counters are modelled as `Int` (no claim depends on wrap-around).
* `serde_json::Value` is modelled by the inductive `Json` below; JSON numbers
  are modelled as integers (no claim involves fractional numbers).
* The `regex` crate is modelled by a small derivative-based engine together
  with a compiler `compileRegex` covering the syntax used by the builtin
  patterns (literals, escapes, `.`, classes, groups, `| * + ?`, and a trailing
  `$` anchor); a pattern the compiler rejects is skipped, exactly as
  `Regex::new(..).ok()` skips patterns that fail to compile.
* Effectful functions are embedded with explicit oracles: the provider is a
  list of responses consumed in order, the human-approval callback is a
  function `String → Except String Bool`, and `run_bash` is a function
  `String → BashResult`.  `handle_bash_tool` additionally returns two Booleans
  recording whether `run_bash` was invoked and whether the approval callback
  was invoked (set exactly at the source locations of those calls).
-/

namespace MinimalCli

/-! ## String helpers -/

/-- Substring test, modelling Rust `str::contains`. -/
def strContains (s sub : String) : Bool :=
  s.data.tails.any (fun t => sub.data.isPrefixOf t)

/-- Modelling Rust `str::starts_with` (character-list prefix test). -/
def strStartsWith (s p : String) : Bool :=
  p.data.isPrefixOf s.data

/-- Modelling Rust `str::trim` (ASCII whitespace suffices for this code). -/
def rustTrim (s : String) : String :=
  String.mk (((s.data.dropWhile Char.isWhitespace).reverse.dropWhile Char.isWhitespace).reverse)

/-- Modelling Rust `str::split_whitespace` (collected to a list of words). -/
def splitWs (s : String) : List String :=
  let f : Char → (List (List Char) × List Char) → (List (List Char) × List Char) :=
    fun c acc =>
      if c.isWhitespace then
        if acc.2 = [] then acc else (acc.2 :: acc.1, [])
      else (acc.1, c :: acc.2)
  let r := s.data.foldr f ([], [])
  (if r.2 = [] then r.1 else r.2 :: r.1).map String.mk

/-! ## Regex engine

A derivative-based matcher.  An atom is a (possibly negated) character class
given by a list of items; `.` compiles to the class `[^\n]`, and the
search wrapper `[^]*` (any character at all) is the atom `true, []`. -/

inductive CItem where
  | lit (c : Char)
  | wsItem
  | digitItem
  | wordItem
deriving DecidableEq

inductive Regex where
  | emp
  | eps
  | atom (neg : Bool) (items : List CItem)
  | cat (r1 r2 : Regex)
  | alt (r1 r2 : Regex)
  | star (r : Regex)
deriving DecidableEq

def citemMatch (it : CItem) (c : Char) : Bool :=
  match it with
  | .lit d => c == d
  | .wsItem => c.isWhitespace
  | .digitItem => c.isDigit
  | .wordItem => c.isAlphanum || c == '_'

def matchAtom (neg : Bool) (items : List CItem) (c : Char) : Bool :=
  if neg then !(items.any (fun it => citemMatch it c))
  else items.any (fun it => citemMatch it c)

def nullable : Regex → Bool
  | .emp => false
  | .eps => true
  | .atom _ _ => false
  | .cat r1 r2 => nullable r1 && nullable r2
  | .alt r1 r2 => nullable r1 || nullable r2
  | .star _ => true

/-- Smart concatenation (keeps derivatives small). -/
def scat (a b : Regex) : Regex :=
  if a = .emp then .emp
  else if b = .emp then .emp
  else if a = .eps then b
  else if b = .eps then a
  else .cat a b

/-- Smart alternation (keeps derivatives small). -/
def salt (a b : Regex) : Regex :=
  if a = .emp then b
  else if b = .emp then a
  else if a = b then a
  else .alt a b

def deriv (r : Regex) (c : Char) : Regex :=
  match r with
  | .emp => .emp
  | .eps => .emp
  | .atom neg items => if matchAtom neg items c then .eps else .emp
  | .cat r1 r2 =>
    if nullable r1 then salt (scat (deriv r1 c) r2) (deriv r2 c)
    else scat (deriv r1 c) r2
  | .alt r1 r2 => salt (deriv r1 c) (deriv r2 c)
  | .star r1 => scat (deriv r1 c) (.star r1)

def rmatch : Regex → List Char → Bool
  | r, [] => nullable r
  | r, c :: cs => rmatch (deriv r c) cs

/-- `[^]*`: matches any string. -/
def allStar : Regex := .star (.atom true [])

/-- Unanchored search (Rust `Regex::is_match`): the pattern may match any
substring; a compiled trailing `$` pins the match to the end of the input. -/
def regexSearch (cre : Regex × Bool) (s : String) : Bool :=
  rmatch (scat allStar (scat cre.1 (if cre.2 then .eps else allStar))) s.data

/-! ### Pattern compiler -/

def escAtom (c : Char) : Option Regex :=
  if c = 's' then some (.atom false [.wsItem])
  else if c = 'S' then some (.atom true [.wsItem])
  else if c = 'd' then some (.atom false [.digitItem])
  else if c = 'D' then some (.atom true [.digitItem])
  else if c = 'w' then some (.atom false [.wordItem])
  else if c = 'W' then some (.atom true [.wordItem])
  else if c = '\\' ∨ c = '.' ∨ c = '[' ∨ c = ']' ∨ c = '(' ∨ c = ')' ∨ c = '|'
       ∨ c = '*' ∨ c = '+' ∨ c = '?' ∨ c = '$' ∨ c = '^' ∨ c = '-' ∨ c = '/'
       ∨ c = '\x7b' ∨ c = '\x7d' then some (.atom false [.lit c])
  else none

def escClassItem (c : Char) : Option CItem :=
  if c = 's' then some .wsItem
  else if c = 'd' then some .digitItem
  else if c = 'w' then some .wordItem
  else if c = '\\' ∨ c = '.' ∨ c = '[' ∨ c = ']' ∨ c = '(' ∨ c = ')' ∨ c = '|'
       ∨ c = '*' ∨ c = '+' ∨ c = '?' ∨ c = '$' ∨ c = '^' ∨ c = '-' ∨ c = '/'
       ∨ c = '\x7b' ∨ c = '\x7d' then some (.lit c)
  else none

/-- Parse the items of a character class, up to the closing `]`. -/
def parseClassItems : List Char → Option (List CItem × List Char)
  | [] => none
  | ']' :: rest => some ([], rest)
  | '\\' :: c :: rest =>
    match escClassItem c with
    | some it => (parseClassItems rest).map (fun p => (it :: p.1, p.2))
    | none => none
  | '\\' :: [] => none
  | c :: rest => (parseClassItems rest).map (fun p => (CItem.lit c :: p.1, p.2))

def isRegexMeta (c : Char) : Bool :=
  c = '\\' || c = '.' || c = '[' || c = ']' || c = '(' || c = ')' || c = '|'
  || c = '*' || c = '+' || c = '?' || c = '$' || c = '^'
  || c = '\x7b' || c = '\x7d'

mutual

def parseRegexAtom : Nat → List Char → Option (Regex × List Char)
  | 0, _ => none
  | _ + 1, [] => none
  | fuel + 1, c :: rest =>
    if c = '(' then
      match parseRegexAlt fuel rest with
      | some (r, ')' :: rest2) => some (r, rest2)
      | _ => none
    else if c = '[' then
      match rest with
      | '^' :: rest2 => (parseClassItems rest2).map (fun p => (.atom true p.1, p.2))
      | _ => (parseClassItems rest).map (fun p => (.atom false p.1, p.2))
    else if c = '\\' then
      match rest with
      | [] => none
      | e :: rest2 => (escAtom e).map (fun r => (r, rest2))
    else if c = '.' then
      some (.atom true [.lit '\n'], rest)
    else if isRegexMeta c then none
    else some (.atom false [.lit c], rest)

def parseRegexSeq : Nat → List Char → Option (Regex × List Char)
  | 0, _ => none
  | _ + 1, [] => some (.eps, [])
  | fuel + 1, c :: rest =>
    if c = ')' ∨ c = '|' then some (.eps, c :: rest)
    else
      match parseRegexAtom fuel (c :: rest) with
      | none => none
      | some (r, rest2) =>
        let (r2, rest3) :=
          match rest2 with
          | '*' :: rr => (Regex.star r, rr)
          | '+' :: rr => (Regex.cat r (Regex.star r), rr)
          | '?' :: rr => (Regex.alt r Regex.eps, rr)
          | _ => (r, rest2)
        match rest3 with
        | '*' :: _ => none
        | '+' :: _ => none
        | '?' :: _ => none
        | _ =>
          match parseRegexSeq fuel rest3 with
          | none => none
          | some (rs, rest4) => some (scat r2 rs, rest4)

def parseRegexAlt : Nat → List Char → Option (Regex × List Char)
  | 0, _ => none
  | fuel + 1, s =>
    match parseRegexSeq fuel s with
    | none => none
    | some (r, '|' :: rest) =>
      match parseRegexAlt fuel rest with
      | none => none
      | some (r2, rest2) => some (.alt r r2, rest2)
    | some (r, rest) => some (r, rest)

end

/-- Modelling `Regex::new`: `none` for a pattern outside the supported
syntax (such a pattern is skipped by the policy code).  The Boolean records
a trailing end-of-input anchor `$`. -/
def compileRegex (pat : String) : Option (Regex × Bool) :=
  let cs := pat.data
  let anchored := cs.getLast? = some '$' ∧ (cs.dropLast.getLast? ≠ some '\\')
  let body := if anchored then cs.dropLast else cs
  match parseRegexAlt (body.length + 2) body with
  | some (r, []) => some (r, anchored)
  | _ => none

/-! ## Policy classifier (src/policy_bash.rs) -/

inductive PolicyResult where
  | Auto
  | Ask
  | Deny
deriving DecidableEq, Repr

/-- `DANGEROUS_FILE_PATTERNS` from src/policy_bash.rs. -/
def DANGEROUS_FILE_PATTERNS : List String := [
  "\\.env$",
  "\\.env\\.",
  "\\.dev\\.vars$",
  "credentials",
  "secret",
  "\\.pem$",
  "\\.key$",
  "id_rsa",
  "id_ed25519",
  "package-lock\\.json$",
  "yarn\\.lock$",
  "pnpm-lock\\.yaml$",
  "\\.DS_Store$",
  "node_modules"
]

/-- `BUILTIN_DENY_PATTERNS` from src/policy_bash.rs. -/
def BUILTIN_DENY_PATTERNS : List String := [
  "rm\\s+(-[rf]+\\s+)*\\/",
  "rm\\s+-rf?\\s+\\*",
  "rm\\s+-rf?\\s+\\.\\*",
  "mkfs",
  "dd\\s+if=.*of=\\/dev",
  ">\\s*\\/dev\\/sd",
  "gcloud\\s+.*delete",
  "gcloud\\s+.*destroy",
  "aws\\s+.*delete",
  "aws\\s+.*terminate",
  "kubectl\\s+delete",
  ":\\(\\)\\s*\\\x7b.*\\|.*&.*\\\x7d",
  "chmod\\s+-R\\s+777\\s+\\/",
  "chown\\s+-R.*\\/",
  "curl.*\\|\\s*(ba)?sh",
  "wget.*\\|\\s*(ba)?sh",
  "ls\\s+-[^\\s]*R",
  "ls\\s+-R",
  "sed\\s.*-i"
]

/-- `BUILTIN_AUTO_COMMANDS` from src/policy_bash.rs. -/
def BUILTIN_AUTO_COMMANDS : List String := [
  "ls", "ls -la", "ls -l", "ls -a", "pwd", "whoami", "date", "which",
  "cat", "head", "tail", "less", "more", "wc", "file", "stat", "tree",
  "find", "fd", "grep", "rg", "sed -n",
  "git status", "git diff", "git log", "git branch"
]

/-- `PolicyConfig` from src/config.rs. -/
structure PolicyConfig where
  default_action : String
  deny_patterns : List String
  auto_commands : List String

/-- `Config` from src/config.rs, restricted to the field `check_policy`
reads (the `llm` field is a collaborator consumed only at construction). -/
structure Config where
  policy : PolicyConfig

/-- `check_policy` from src/policy_bash.rs, translated clause by clause:
builtin deny patterns are compiled first and configured ones appended
(failures skipped), then the dangerous-file patterns run on the argument
tail, then the `[|;&`$()]` regex, then the auto list, then the default. -/
def check_policy (command : String) (config : Config) : PolicyResult :=
  let cmd := rustTrim command
  let deny_patterns : List (Regex × Bool) :=
    BUILTIN_DENY_PATTERNS.filterMap compileRegex
      ++ config.policy.deny_patterns.filterMap compileRegex
  if deny_patterns.any (fun re => regexSearch re cmd) then .Deny
  else
    let args := String.intercalate " " ((splitWs cmd).drop 1)
    if DANGEROUS_FILE_PATTERNS.any (fun pattern =>
        match compileRegex pattern with
        | some re => regexSearch re args
        | none => false) then .Deny
    else if (match compileRegex "[|;&`$()]" with
        | some re => regexSearch re cmd
        | none => false) then .Ask
    else
      let auto_commands : List String :=
        BUILTIN_AUTO_COMMANDS ++ config.policy.auto_commands
      if auto_commands.any (fun auto_cmd =>
          cmd == auto_cmd || strStartsWith cmd (auto_cmd ++ " ")) then .Auto
      else if config.policy.default_action == "deny" then .Deny
      else .Ask

/-! ### Spec-side tier predicates (phrased after the specification) -/

/-- A pattern string matches `s` if it compiles and its regex search
succeeds; a non-compiling pattern never matches. -/
def patMatches (pat : String) (s : String) : Bool :=
  match compileRegex pat with
  | some re => regexSearch re s
  | none => false

/-- Tier 1: some builtin deny pattern, or some compiling configured deny
pattern, matches the trimmed command. -/
def specDenyTier (cmd : String) (cfg : Config) : Bool :=
  BUILTIN_DENY_PATTERNS.any (fun p => patMatches p cmd)
    || cfg.policy.deny_patterns.any (fun p => patMatches p cmd)

/-- The argument tail: whitespace-separated tokens after the first,
rejoined with single spaces. -/
def argTail (cmd : String) : String :=
  String.intercalate " " ((splitWs cmd).drop 1)

/-- Tier 2: some builtin dangerous-file pattern matches the argument tail. -/
def specFileTier (cmd : String) : Bool :=
  DANGEROUS_FILE_PATTERNS.any (fun p => patMatches p (argTail cmd))

/-- Tier 3: the trimmed command contains one of the seven shell
metacharacters (the character 96 is the backquote). -/
def specMetaTier (cmd : String) : Bool :=
  cmd.data.any (fun c =>
    c == '|' || (c == ';' || (c == '&' || (c == Char.ofNat 96
      || (c == '$' || (c == '(' || c == ')'))))))

/-- Tier 4: the trimmed command equals a builtin or configured auto entry
exactly, or starts with that entry followed by a space. -/
def specAutoTier (cmd : String) (cfg : Config) : Bool :=
  (BUILTIN_AUTO_COMMANDS ++ cfg.policy.auto_commands).any (fun e =>
    cmd == e || strStartsWith cmd (e ++ " "))

/-! ### Matcher lemmas -/

theorem rmatch_emp (s : List Char) : rmatch .emp s = false := by
  induction s with
  | nil => rfl
  | cons c cs ih => simpa [rmatch, deriv] using ih

theorem deriv_allStar (c : Char) : deriv allStar c = allStar := by
  simp [allStar, deriv, matchAtom, scat]

theorem rmatch_allStar (s : List Char) : rmatch allStar s = true := by
  induction s with
  | nil => rfl
  | cons c cs ih =>
    show rmatch (deriv allStar c) cs = true
    rw [deriv_allStar]
    exact ih

theorem nullable_salt (a b : Regex) :
    nullable (salt a b) = (nullable a || nullable b) := by
  unfold salt
  split_ifs with h1 h2 h3
  · subst h1; simp [nullable]
  · subst h2; simp [nullable]
  · subst h3; simp
  · rfl

theorem rmatch_salt (s : List Char) :
    ∀ a b : Regex, rmatch (salt a b) s = (rmatch a s || rmatch b s) := by
  induction s with
  | nil => intro a b; simp [rmatch, nullable_salt]
  | cons c cs ih =>
    intro a b
    by_cases ha : a = .emp
    · subst ha
      have : salt .emp b = b := by simp [salt]
      rw [this]
      simp [rmatch_emp, show rmatch .emp (c :: cs) = false from rmatch_emp _]
    · by_cases hb : b = .emp
      · subst hb
        have : salt a .emp = a := by simp [salt, ha]
        rw [this]
        simp [show rmatch .emp (c :: cs) = false from rmatch_emp _]
      · by_cases hab : a = b
        · subst hab
          have : salt a a = a := by simp [salt, ha]
          rw [this]
          simp
        · have : salt a b = .alt a b := by simp [salt, ha, hb, hab]
          rw [this]
          calc rmatch (.alt a b) (c :: cs)
              = rmatch (salt (deriv a c) (deriv b c)) cs := rfl
            _ = (rmatch (deriv a c) cs || rmatch (deriv b c) cs) := ih _ _
            _ = (rmatch a (c :: cs) || rmatch b (c :: cs)) := rfl

theorem searchAtom (neg : Bool) (items : List CItem) (s : List Char) :
    rmatch (.cat allStar (.cat (.atom neg items) allStar)) s
      = s.any (matchAtom neg items) := by
  induction s with
  | nil => simp [rmatch, nullable, allStar]
  | cons c cs ih =>
    show rmatch (deriv (.cat allStar (.cat (.atom neg items) allStar)) c) cs = _
    have hstep : deriv (.cat allStar (.cat (.atom neg items) allStar)) c
        = salt (scat (deriv allStar c) (.cat (.atom neg items) allStar))
            (scat (if matchAtom neg items c then .eps else .emp) allStar) := rfl
    have hscat : scat allStar (.cat (.atom neg items) allStar)
        = .cat allStar (.cat (.atom neg items) allStar) := by
      simp [scat, allStar]
    have hD : deriv (.cat allStar (.cat (.atom neg items) allStar)) c
        = salt (.cat allStar (.cat (.atom neg items) allStar))
            (scat (if matchAtom neg items c then .eps else .emp) allStar) := by
      rw [hstep, deriv_allStar, hscat]
    rw [hD, rmatch_salt]
    by_cases hm : matchAtom neg items c
    · have : scat (if matchAtom neg items c then Regex.eps else Regex.emp) allStar
          = allStar := by
        simp [hm, scat, allStar]
      rw [this]
      simp [rmatch_allStar, hm]
    · have : scat (if matchAtom neg items c then Regex.eps else Regex.emp) allStar
          = .emp := by
        simp [hm, scat]
      rw [this]
      simp [rmatch_emp, hm, ih]

theorem any_filterMap_compile (l : List String) (s : String) :
    (l.filterMap compileRegex).any (fun re => regexSearch re s)
      = l.any (fun p => patMatches p s) := by
  induction l with
  | nil => rfl
  | cons p rest ih =>
    cases h : compileRegex p with
    | none => simp [List.filterMap_cons, h, patMatches, ih]
    | some re => simp [List.filterMap_cons, h, patMatches, ih]

theorem meta_regex_chars (s : String) :
    (match compileRegex "[|;&`$()]" with
     | some re => regexSearch re s
     | none => false) = specMetaTier s := by
  have hc : compileRegex "[|;&`$()]" =
      some (.atom false [.lit '|', .lit ';', .lit '&', .lit (Char.ofNat 96),
        .lit '$', .lit '(', .lit ')'], false) := by decide
  rw [hc]
  show rmatch (.cat allStar (.cat (.atom false [.lit '|', .lit ';', .lit '&',
        .lit (Char.ofNat 96), .lit '$', .lit '(', .lit ')']) allStar)) s.data
      = specMetaTier s
  rw [searchAtom]
  unfold specMetaTier
  congr 1
  funext c
  simp [matchAtom, citemMatch, List.any]

/-- Claim C1: `check_policy` is the five-tier first-match-wins ladder:
deny patterns (builtin and compiling configured ones) on the trimmed
command, then builtin dangerous-file patterns on the argument tail, then
the shell-metacharacter check, then the auto-allow list (exact match or
entry-plus-space prefix), then the configured default action. -/
theorem check_policy_is_five_tier_ladder (command : String) (cfg : Config) :
    check_policy command cfg =
      (if specDenyTier (rustTrim command) cfg then .Deny
       else if specFileTier (rustTrim command) then .Deny
       else if specMetaTier (rustTrim command) then .Ask
       else if specAutoTier (rustTrim command) cfg then .Auto
       else if cfg.policy.default_action == "deny" then .Deny
       else .Ask) := by
  simp only [check_policy]
  rw [show (BUILTIN_DENY_PATTERNS.filterMap compileRegex
        ++ cfg.policy.deny_patterns.filterMap compileRegex).any
          (fun re => regexSearch re (rustTrim command))
      = specDenyTier (rustTrim command) cfg by
    rw [List.any_append, any_filterMap_compile, any_filterMap_compile]; rfl]
  rw [show (DANGEROUS_FILE_PATTERNS.any (fun pattern =>
        match compileRegex pattern with
        | some re => regexSearch re
            (String.intercalate " " ((splitWs (rustTrim command)).drop 1))
        | none => false))
      = specFileTier (rustTrim command) from rfl]
  rw [meta_regex_chars]
  rfl

/-- Claim C3: the five concrete classifications from the specification,
under the builtin lists with no extra configured patterns. -/
theorem check_policy_concrete_examples :
    check_policy "ls -la" ⟨⟨"ask", [], []⟩⟩ = .Auto
    ∧ check_policy "cat .env" ⟨⟨"ask", [], []⟩⟩ = .Deny
    ∧ check_policy "echo hi && ls" ⟨⟨"ask", [], []⟩⟩ = .Ask
    ∧ check_policy "ls; rm -rf /" ⟨⟨"ask", [], []⟩⟩ = .Deny
    ∧ check_policy "custom-tool" ⟨⟨"deny", [], []⟩⟩ = .Deny
    ∧ check_policy "custom-tool" ⟨⟨"ask", [], []⟩⟩ = .Ask := by
  refine ⟨?_, ?_, ?_, ?_, ?_, ?_⟩ <;> decide

/-! ## JSON values (`serde_json::Value`)

Numbers are modelled as integers; the code under verification only ever
builds integer numbers (exit codes), and no claim involves fractional
numbers.  Objects are association lists; key lookup takes the last
occurrence, matching insertion-order-overwrite map semantics. -/

inductive Json where
  | jnull
  | jbool (b : Bool)
  | jnum (n : Int)
  | jstr (s : String)
  | jarr (elems : List Json)
  | jobj (members : List (String × Json))

/-- `Value::get` on an object key: the last binding wins. -/
def objGet (members : List (String × Json)) (k : String) : Option Json :=
  match members with
  | [] => none
  | (k2, v) :: rest =>
    match objGet rest k with
    | some r => some r
    | none => if k2 == k then some v else none

/-- `Value::get`: `none` on every non-object. -/
def valueGet (v : Json) (k : String) : Option Json :=
  match v with
  | .jobj members => objGet members k
  | _ => none

/-! ### Printing (`serde_json::to_string`, compact) -/

def hexDigitChar (n : Nat) : Char :=
  if n < 10 then Char.ofNat (48 + n) else Char.ofNat (87 + n)

/-- JSON string escaping as `serde_json` performs it: quote, backslash,
the five short control escapes, and `\u00XX` for other control characters. -/
def escChar (c : Char) : List Char :=
  if c = '"' then ['\\', '"']
  else if c = '\\' then ['\\', '\\']
  else if c = Char.ofNat 8 then ['\\', 'b']
  else if c = '\t' then ['\\', 't']
  else if c = '\n' then ['\\', 'n']
  else if c = Char.ofNat 12 then ['\\', 'f']
  else if c = '\r' then ['\\', 'r']
  else if c.toNat < 32 then
    ['\\', 'u', '0', '0', hexDigitChar (c.toNat / 16), hexDigitChar (c.toNat % 16)]
  else [c]

def escList : List Char → List Char
  | [] => []
  | c :: rest => escChar c ++ escList rest

def digitChar (d : Nat) : Char := Char.ofNat (48 + d)

/-- Little-endian base-10 digits, with explicit fuel (any `fuel > n` works). -/
def natDigitsRev (fuel n : Nat) : List Nat :=
  match fuel with
  | 0 => []
  | f + 1 => if n = 0 then [] else n % 10 :: natDigitsRev f (n / 10)

def printNat (n : Nat) : List Char :=
  if n = 0 then ['0']
  else ((natDigitsRev (n + 1) n).reverse.map digitChar)

def printInt (n : Int) : List Char :=
  if n < 0 then '-' :: printNat n.natAbs else printNat n.toNat

mutual

def printJson : Json → List Char
  | .jnull => ['n', 'u', 'l', 'l']
  | .jbool true => ['t', 'r', 'u', 'e']
  | .jbool false => ['f', 'a', 'l', 's', 'e']
  | .jnum n => printInt n
  | .jstr s => '"' :: (escList s.data ++ ['"'])
  | .jarr l => '[' :: (printElems l ++ [']'])
  | .jobj kvs => '\x7b' :: (printObjElems kvs ++ ['\x7d'])

def printElems : List Json → List Char
  | [] => []
  | [x] => printJson x
  | x :: y :: tl => printJson x ++ ',' :: printElems (y :: tl)

def printKV : String → Json → List Char
  | k, v => '"' :: (escList k.data ++ '"' :: ':' :: printJson v)

def printObjElems : List (String × Json) → List Char
  | [] => []
  | [(k, v)] => printKV k v
  | (k, v) :: e :: tl => printKV k v ++ ',' :: printObjElems (e :: tl)

end

/-- `serde_json::to_string` (total on `Value`). -/
def jsonToString (v : Json) : String := String.mk (printJson v)

/-! ### Parsing (`serde_json::from_str`) -/

def isJsonWsChar (c : Char) : Bool :=
  c = ' ' || c = '\t' || c = '\n' || c = '\r'

def skipJsonWs : List Char → List Char
  | [] => []
  | c :: rest => if isJsonWsChar c then skipJsonWs rest else c :: rest

def hexVal (c : Char) : Option Nat :=
  if 48 ≤ c.toNat ∧ c.toNat ≤ 57 then some (c.toNat - 48)
  else if 97 ≤ c.toNat ∧ c.toNat ≤ 102 then some (c.toNat - 87)
  else if 65 ≤ c.toNat ∧ c.toNat ≤ 70 then some (c.toNat - 55)
  else none

def escDecode (e : Char) : Option Char :=
  if e = '"' then some '"'
  else if e = '\\' then some '\\'
  else if e = '/' then some '/'
  else if e = 'n' then some '\n'
  else if e = 't' then some '\t'
  else if e = 'r' then some '\r'
  else if e = 'b' then some (Char.ofNat 8)
  else if e = 'f' then some (Char.ofNat 12)
  else none

/-- State of the JSON string-body scanner: plain characters, a pending
backslash, or `k` remaining hex digits of a `\uXXXX` escape with the
accumulated code point `acc`. -/
inductive StrMode where
  | norm
  | esc
  | uni (k : Nat) (acc : Nat)

/-- One-character-at-a-time scanner for a JSON string body. -/
def psbGo : StrMode → List Char → Option (List Char × List Char)
  | _, [] => none
  | .norm, c :: rest =>
    if c = '"' then some ([], rest)
    else if c = '\\' then psbGo .esc rest
    else if c.toNat < 32 then none
    else (psbGo .norm rest).map (fun p => (c :: p.1, p.2))
  | .esc, e :: rest =>
    if e = 'u' then psbGo (.uni 4 0) rest
    else
      match escDecode e with
      | some d => (psbGo .norm rest).map (fun p => (d :: p.1, p.2))
      | none => none
  | .uni k acc, c :: rest =>
    match hexVal c with
    | none => none
    | some hv =>
      if k = 1 then
        if acc * 16 + hv < 55296 then
          (psbGo .norm rest).map (fun p => (Char.ofNat (acc * 16 + hv) :: p.1, p.2))
        else none
      else psbGo (.uni (k - 1) (acc * 16 + hv)) rest

/-- Parse a JSON string body (after the opening quote), consuming the
closing quote.  Raw control characters are rejected; `\uXXXX` escapes are
accepted below the surrogate range (the printer only emits `\u00XX`). -/
def parseStrBody (s : List Char) : Option (List Char × List Char) :=
  psbGo .norm s

def takeDigits : List Char → List Char × List Char
  | [] => ([], [])
  | c :: rest =>
    if c.isDigit then
      let p := takeDigits rest
      (c :: p.1, p.2)
    else ([], c :: rest)

def digitsToNat (acc : Nat) (ds : List Char) : Nat :=
  ds.foldl (fun a c => a * 10 + (c.toNat - 48)) acc

mutual

def parseJsonVal : Nat → List Char → Option (Json × List Char)
  | 0, _ => none
  | fuel + 1, s =>
    match skipJsonWs s with
    | [] => none
    | c :: rest =>
      if c = 'n' then
        if ['u', 'l', 'l'].isPrefixOf rest then some (.jnull, rest.drop 3) else none
      else if c = 't' then
        if ['r', 'u', 'e'].isPrefixOf rest then some (.jbool true, rest.drop 3) else none
      else if c = 'f' then
        if ['a', 'l', 's', 'e'].isPrefixOf rest then some (.jbool false, rest.drop 4)
        else none
      else if c = '"' then
        (parseStrBody rest).map (fun p => (.jstr (String.mk p.1), p.2))
      else if c = '-' then
        let td := takeDigits rest
        if td.1 = [] then none
        else some (.jnum (-(digitsToNat 0 td.1 : Nat) : Int), td.2)
      else if c = '[' then
        let s1 := skipJsonWs rest
        if s1.head? = some ']' then some (.jarr [], s1.tail)
        else (parseArrElems fuel s1).map (fun p => (.jarr p.1, p.2))
      else if c = '\x7b' then
        let s1 := skipJsonWs rest
        if s1.head? = some '\x7d' then some (.jobj [], s1.tail)
        else (parseObjElems fuel s1).map (fun p => (.jobj p.1, p.2))
      else if c.isDigit then
        let td := takeDigits (c :: rest)
        if td.1 = [] then none
        else some (.jnum ((digitsToNat 0 td.1 : Nat) : Int), td.2)
      else none

def parseArrElems : Nat → List Char → Option (List Json × List Char)
  | 0, _ => none
  | fuel + 1, s =>
    match parseJsonVal fuel s with
    | none => none
    | some (v, r) =>
      let s2 := skipJsonWs r
      if s2.head? = some ']' then some ([v], s2.tail)
      else if s2.head? = some ',' then
        (parseArrElems fuel s2.tail).map (fun p => (v :: p.1, p.2))
      else none

def parseObjElems : Nat → List Char → Option (List (String × Json) × List Char)
  | 0, _ => none
  | fuel + 1, s =>
    let s1 := skipJsonWs s
    if s1.head? = some '"' then
      match parseStrBody s1.tail with
      | none => none
      | some (kcs, r) =>
        let s2 := skipJsonWs r
        if s2.head? = some ':' then
          match parseJsonVal fuel s2.tail with
          | none => none
          | some (v, r2) =>
            let s3 := skipJsonWs r2
            if s3.head? = some '\x7d' then some ([(String.mk kcs, v)], s3.tail)
            else if s3.head? = some ',' then
              (parseObjElems fuel s3.tail).map (fun p => ((String.mk kcs, v) :: p.1, p.2))
            else none
        else none
    else none

end

/-- `serde_json::from_str::<Value>`: parse one value, then require only
trailing whitespace. -/
def jsonFromStr (s : String) : Option Json :=
  match parseJsonVal (s.data.length + 2) s.data with
  | some (v, rest) => if skipJsonWs rest = [] then some v else none
  | none => none

/-! ### Pretty printing (`serde_json::to_string_pretty`, two-space indent) -/

def indentChars (n : Nat) : List Char := List.replicate n ' '

mutual

def printJsonPretty : Nat → Json → List Char
  | _, .jnull => ['n', 'u', 'l', 'l']
  | _, .jbool true => ['t', 'r', 'u', 'e']
  | _, .jbool false => ['f', 'a', 'l', 's', 'e']
  | _, .jnum n => printInt n
  | _, .jstr s => '"' :: (escList s.data ++ ['"'])
  | _, .jarr [] => ['[', ']']
  | ind, .jarr (x :: tl) =>
    '[' :: '\n' :: (printElemsPretty (ind + 2) (x :: tl)
      ++ '\n' :: (indentChars ind ++ [']']))
  | _, .jobj [] => ['\x7b', '\x7d']
  | ind, .jobj (e :: tl) =>
    '\x7b' :: '\n' :: (printObjElemsPretty (ind + 2) (e :: tl)
      ++ '\n' :: (indentChars ind ++ ['\x7d']))

def printElemsPretty : Nat → List Json → List Char
  | _, [] => []
  | ind, [x] => indentChars ind ++ printJsonPretty ind x
  | ind, x :: y :: tl =>
    indentChars ind ++ printJsonPretty ind x ++ ',' :: '\n'
      :: printElemsPretty ind (y :: tl)

def printKVPretty : Nat → String → Json → List Char
  | ind, k, v =>
    indentChars ind ++ '"' :: (escList k.data ++ '"' :: ':' :: ' '
      :: printJsonPretty ind v)

def printObjElemsPretty : Nat → List (String × Json) → List Char
  | _, [] => []
  | ind, [(k, v)] => printKVPretty ind k v
  | ind, (k, v) :: e :: tl =>
    printKVPretty ind k v ++ ',' :: '\n' :: printObjElemsPretty ind (e :: tl)

end

/-- `serde_json::to_string_pretty` (total on `Value`). -/
def jsonToStringPretty (v : Json) : String := String.mk (printJsonPretty 0 v)

/-! ### Round-trip: `from_str ∘ to_string = some` -/

mutual

/-- Fuel sufficient for `parseJsonVal` on the printed form of a value. -/
def jfuel : Json → Nat
  | .jarr l => 1 + jfuelArr l
  | .jobj kvs => 1 + jfuelObj kvs
  | _ => 1

def jfuelArr : List Json → Nat
  | [] => 0
  | x :: xs => 1 + max (jfuel x) (jfuelArr xs)

def jfuelObj : List (String × Json) → Nat
  | [] => 0
  | e :: tl => 1 + max (jfuel e.2) (jfuelObj tl)

end

theorem jfuel_pos (v : Json) : 1 ≤ jfuel v := by
  cases v <;> simp [jfuel]

theorem jfuelArr_pos (l : List Json) (h : l ≠ []) : 1 ≤ jfuelArr l := by
  cases l with
  | nil => exact absurd rfl h
  | cons x xs => simp [jfuelArr]

theorem jfuelObj_pos (l : List (String × Json)) (h : l ≠ []) : 1 ≤ jfuelObj l := by
  cases l with
  | nil => exact absurd rfl h
  | cons x xs => simp [jfuelObj]

def headNotDigit : List Char → Bool
  | [] => true
  | c :: _ => !c.isDigit

/-- A character that can start a printed JSON value: not whitespace and
not one of the closing delimiters or the comma. -/
def goodHead (c : Char) : Bool :=
  !isJsonWsChar c && !(c == ']') && !(c == '\x7d') && !(c == ',')

theorem skipJsonWs_not_ws {c : Char} (l : List Char) (h : isJsonWsChar c = false) :
    skipJsonWs (c :: l) = c :: l := by
  simp [skipJsonWs, h]

theorem hexVal_hexDigitChar : ∀ m, m < 16 → hexVal (hexDigitChar m) = some m := by
  decide

theorem natDigitsRev_spec : ∀ fuel n, n < fuel →
    Nat.ofDigits 10 (natDigitsRev fuel n) = n
    ∧ ∀ d ∈ natDigitsRev fuel n, d < 10 := by
  intro fuel
  induction fuel with
  | zero => omega
  | succ f ih =>
    intro n hn
    by_cases h0 : n = 0
    · subst h0; simp [natDigitsRev, Nat.ofDigits_nil]
    · have hdiv : n / 10 < f := by omega
      obtain ⟨ih1, ih2⟩ := ih (n / 10) hdiv
      constructor
      · simp [natDigitsRev, h0, Nat.ofDigits_cons, ih1]
        omega
      · intro d hd
        simp [natDigitsRev, h0] at hd
        rcases hd with h | h
        · omega
        · exact ih2 d h

theorem printNat_shape (n : Nat) :
    ∃ ds, printNat n = ds.map digitChar ∧ (∀ d ∈ ds, d < 10) ∧ ds ≠ []
      ∧ Nat.ofDigits 10 ds.reverse = n := by
  by_cases h0 : n = 0
  · subst h0
    exact ⟨[0], by simp [printNat, digitChar], by simp, by simp, by
      simp [Nat.ofDigits_singleton]⟩
  · obtain ⟨h1, h2⟩ := natDigitsRev_spec (n + 1) n (by omega)
    refine ⟨(natDigitsRev (n + 1) n).reverse, by simp [printNat, h0], ?_, ?_, ?_⟩
    · intro d hd
      exact h2 d (List.mem_reverse.mp hd)
    · have : natDigitsRev (n + 1) n ≠ [] := by
        simp [natDigitsRev, h0]
      simpa using this
    · simpa using h1

theorem digitsToNat_map : ∀ (ds : List Nat) (acc : Nat), (∀ d ∈ ds, d < 10) →
    digitsToNat acc (ds.map digitChar)
      = acc * 10 ^ ds.length + Nat.ofDigits 10 ds.reverse := by
  intro ds
  induction ds with
  | nil => intro acc _; simp [digitsToNat, Nat.ofDigits_nil]
  | cons d tl ih =>
    intro acc hlt
    have hd : d < 10 := hlt d (by simp)
    have hval : (digitChar d).toNat - 48 = d := by
      have : ∀ e, e < 10 → (digitChar e).toNat - 48 = e := by decide
      exact this d hd
    have htl : ∀ e ∈ tl, e < 10 := fun e he => hlt e (by simp [he])
    calc digitsToNat acc ((d :: tl).map digitChar)
        = digitsToNat (acc * 10 + d) (tl.map digitChar) := by
          simp [digitsToNat, List.foldl_cons, hval]
      _ = (acc * 10 + d) * 10 ^ tl.length + Nat.ofDigits 10 tl.reverse := ih _ htl
      _ = acc * 10 ^ (d :: tl).length + Nat.ofDigits 10 (d :: tl).reverse := by
          simp [Nat.ofDigits_append, Nat.ofDigits_singleton]
          ring

theorem takeDigits_append : ∀ (ds rest : List Char),
    (∀ c ∈ ds, c.isDigit = true) → headNotDigit rest = true →
    takeDigits (ds ++ rest) = (ds, rest) := by
  intro ds
  induction ds with
  | nil =>
    intro rest _ hnd
    cases rest with
    | nil => rfl
    | cons c r =>
      simp [headNotDigit] at hnd
      simp [takeDigits, hnd]
  | cons c tl ih =>
    intro rest hds hnd
    have hc : c.isDigit = true := hds c (by simp)
    have htl : ∀ e ∈ tl, e.isDigit = true := fun e he => hds e (by simp [he])
    simp [takeDigits, hc, ih rest htl hnd]

theorem digitChar_goodHead : ∀ d, d < 10 → goodHead (digitChar d) = true := by
  decide

theorem digitChar_isDigit : ∀ d, d < 10 → (digitChar d).isDigit = true := by
  decide

theorem digitChar_not_ws : ∀ d, d < 10 → isJsonWsChar (digitChar d) = false := by
  decide

theorem digitChar_ne_n : ∀ d, d < 10 → digitChar d ≠ 'n' := by decide

theorem digitChar_ne_t : ∀ d, d < 10 → digitChar d ≠ 't' := by decide

theorem digitChar_ne_f : ∀ d, d < 10 → digitChar d ≠ 'f' := by decide

theorem digitChar_ne_quote : ∀ d, d < 10 → digitChar d ≠ '"' := by decide

theorem digitChar_ne_minus : ∀ d, d < 10 → digitChar d ≠ '-' := by decide

theorem digitChar_ne_lbrack : ∀ d, d < 10 → digitChar d ≠ '[' := by decide

theorem digitChar_ne_lbrace : ∀ d, d < 10 → digitChar d ≠ '\x7b' := by decide

theorem escList_length (cs : List Char) : cs.length ≤ (escList cs).length := by
  induction cs with
  | nil => simp [escList]
  | cons c tl ih =>
    have hc : 1 ≤ (escChar c).length := by
      unfold escChar; split_ifs <;> simp
    simp only [escList, List.length_append, List.length_cons]
    omega

theorem psbGo_escList : ∀ (cs rest : List Char),
    psbGo .norm (escList cs ++ '"' :: rest) = some (cs, rest) := by
  intro cs
  induction cs with
  | nil => intro rest; simp [escList, psbGo]
  | cons c tl ih =>
    intro rest
    by_cases h1 : c = '"'
    · subst h1; simp [escList, escChar, psbGo, escDecode, ih]
    · by_cases h2 : c = '\\'
      · subst h2; simp [escList, escChar, psbGo, escDecode, ih]
      · by_cases h3 : c = Char.ofNat 8
        · subst h3; simp [escList, escChar, psbGo, escDecode, ih]
        · by_cases h4 : c = '\t'
          · subst h4; simp [escList, escChar, psbGo, escDecode, ih]
          · by_cases h5 : c = '\n'
            · subst h5; simp [escList, escChar, psbGo, escDecode, ih]
            · by_cases h6 : c = Char.ofNat 12
              · subst h6; simp [escList, escChar, psbGo, escDecode, ih]
              · by_cases h7 : c = '\r'
                · subst h7; simp [escList, escChar, psbGo, escDecode, ih]
                · by_cases h8 : c.toNat < 32
                  · -- the `\u00XX` case
                    have hdiv : c.toNat / 16 < 16 := by omega
                    have hmod : c.toNat % 16 < 16 := by omega
                    have hofNat : Char.ofNat c.toNat = c := Char.ofNat_toNat c
                    have h0 : hexVal '0' = some 0 := rfl
                    simp only [escList, escChar, h1, h2, h3, h4, h5, h6, h7, h8,
                      if_neg, if_pos, ite_true, ite_false, List.cons_append,
                      List.append_assoc]
                    simp only [psbGo, h0, hexVal_hexDigitChar _ hdiv,
                      hexVal_hexDigitChar _ hmod]
                    simp only [Nat.mul_zero, Nat.zero_mul, Nat.zero_add,
                      Nat.add_zero]
                    simp [psbGo]
                    rw [show (c.toNat / 16 * 16 + c.toNat % 16) = c.toNat from by
                      omega]
                    have hc55 : c.toNat < 55296 := by omega
                    simp [hc55, ih, hofNat]
                  · simp [escList, escChar, h1, h2, h3, h4, h5, h6, h7, h8,
                      psbGo, ih]

theorem parseStrBody_escList (cs rest : List Char) :
    parseStrBody (escList cs ++ '"' :: rest) = some (cs, rest) :=
  psbGo_escList cs rest

theorem printJson_head_good (v : Json) :
    ∃ c t, printJson v = c :: t ∧ goodHead c = true := by
  cases v with
  | jnull => exact ⟨'n', ['u', 'l', 'l'], by simp [printJson], by decide⟩
  | jbool b =>
    cases b with
    | false => exact ⟨'f', ['a', 'l', 's', 'e'], by simp [printJson], by decide⟩
    | true => exact ⟨'t', ['r', 'u', 'e'], by simp [printJson], by decide⟩
  | jnum n =>
    by_cases hn : n < 0
    · exact ⟨'-', printNat n.natAbs, by simp [printJson, printInt, hn], by decide⟩
    · obtain ⟨ds, hpr, hlt, hne, _⟩ := printNat_shape n.toNat
      obtain ⟨d0, tl, rfl⟩ : ∃ d0 tl, ds = d0 :: tl := by
        cases ds with
        | nil => exact absurd rfl hne
        | cons a b => exact ⟨a, b, rfl⟩
      refine ⟨digitChar d0, tl.map digitChar, ?_, ?_⟩
      · rw [show printJson (.jnum n) = printInt n from by simp [printJson]]
        rw [show printInt n = printNat n.toNat from by simp [printInt, hn]]
        simpa using hpr
      · exact digitChar_goodHead d0 (hlt d0 (by simp))
  | jstr s =>
    exact ⟨'"', escList s.data ++ ['"'], by simp [printJson], by decide⟩
  | jarr l => exact ⟨'[', printElems l ++ [']'], by simp [printJson], by decide⟩
  | jobj kvs =>
    exact ⟨'\x7b', printObjElems kvs ++ ['\x7d'], by simp [printJson], by decide⟩

theorem printJson_ne_nil (v : Json) : printJson v ≠ [] := by
  obtain ⟨c, t, hpr, _⟩ := printJson_head_good v
  simp [hpr]

/-- A printed value followed by anything needs no whitespace skipping and
does not start with a closing delimiter. -/
theorem printJson_append_facts (v : Json) (r : List Char) :
    skipJsonWs (printJson v ++ r) = printJson v ++ r
    ∧ ¬(printJson v ++ r).head? = some ']'
    ∧ ¬(printJson v ++ r).head? = some '\x7d' := by
  obtain ⟨c, t, hpr, hgood⟩ := printJson_head_good v
  rw [hpr]
  simp only [goodHead, Bool.and_eq_true, Bool.not_eq_true'] at hgood
  obtain ⟨⟨⟨hws, hb1⟩, hb2⟩, _⟩ := hgood
  refine ⟨skipJsonWs_not_ws _ hws, ?_, ?_⟩
  · simp [List.cons_append]
    simpa using hb1
  · simp [List.cons_append]
    simpa using hb2

theorem printElems_cons_shape (x : Json) (xs : List Json) :
    ∃ t, printElems (x :: xs) = printJson x ++ t := by
  cases xs with
  | nil => exact ⟨[], by simp [printElems]⟩
  | cons y tl => exact ⟨',' :: printElems (y :: tl), by simp [printElems]⟩

theorem printObjElems_cons_shape (k : String) (v : Json) (tl : List (String × Json)) :
    ∃ t, printObjElems ((k, v) :: tl) = '"' :: t := by
  cases tl with
  | nil =>
    exact ⟨escList k.data ++ '"' :: ':' :: printJson v, by
      simp [printObjElems, printKV]⟩
  | cons e tl2 =>
    exact ⟨(escList k.data ++ '"' :: ':' :: printJson v)
        ++ ',' :: printObjElems (e :: tl2), by
      simp [printObjElems, printKV]⟩

theorem digitsToNat_cons_map (d0 : Nat) (tl : List Nat) (h : ∀ d ∈ d0 :: tl, d < 10) :
    digitsToNat 0 (digitChar d0 :: tl.map digitChar)
      = Nat.ofDigits 10 (d0 :: tl).reverse := by
  have := digitsToNat_map (d0 :: tl) 0 h
  simpa using this

theorem parse_print_roundtrip : ∀ fuel : Nat,
    (∀ v rest, jfuel v ≤ fuel → headNotDigit rest = true →
      parseJsonVal fuel (printJson v ++ rest) = some (v, rest))
    ∧ (∀ l rest, l ≠ [] → jfuelArr l ≤ fuel →
      parseArrElems fuel (printElems l ++ ']' :: rest) = some (l, rest))
    ∧ (∀ kvs rest, kvs ≠ [] → jfuelObj kvs ≤ fuel →
      parseObjElems fuel (printObjElems kvs ++ '\x7d' :: rest) = some (kvs, rest)) := by
  intro fuel
  induction fuel with
  | zero =>
    refine ⟨fun v rest hle _ => ?_, fun l rest hne hle => ?_,
      fun kvs rest hne hle => ?_⟩
    · exact absurd hle (by have := jfuel_pos v; omega)
    · exact absurd hle (by have := jfuelArr_pos l hne; omega)
    · exact absurd hle (by have := jfuelObj_pos kvs hne; omega)
  | succ f ih =>
    obtain ⟨ihV, ihA, ihO⟩ := ih
    refine ⟨?_, ?_, ?_⟩
    · -- values
      intro v rest hle hnd
      cases v with
      | jnull =>
        rw [show printJson .jnull = ['n', 'u', 'l', 'l'] from by simp [printJson]]
        simp [parseJsonVal, skipJsonWs, isJsonWsChar, List.isPrefixOf]
      | jbool b =>
        cases b with
        | true =>
          rw [show printJson (.jbool true) = ['t', 'r', 'u', 'e'] from by
            simp [printJson]]
          simp [parseJsonVal, skipJsonWs, isJsonWsChar, List.isPrefixOf]
        | false =>
          rw [show printJson (.jbool false) = ['f', 'a', 'l', 's', 'e'] from by
            simp [printJson]]
          simp [parseJsonVal, skipJsonWs, isJsonWsChar, List.isPrefixOf]
      | jstr s =>
        rw [show printJson (.jstr s) = '"' :: (escList s.data ++ ['"']) from by
          simp [printJson]]
        simp only [List.cons_append, List.append_assoc, List.singleton_append]
        simp [parseJsonVal, skipJsonWs, isJsonWsChar, parseStrBody_escList]
      | jnum n =>
        rw [show printJson (.jnum n) = printInt n from by simp [printJson]]
        by_cases hn : n < 0
        · obtain ⟨ds, hpr, hlt, hdne, hof⟩ := printNat_shape n.natAbs
          rw [show printInt n = '-' :: printNat n.natAbs from by simp [printInt, hn],
            hpr]
          have hdig : ∀ c ∈ ds.map digitChar, c.isDigit = true := by
            intro c hc
            obtain ⟨d, hd, rfl⟩ := List.mem_map.mp hc
            exact digitChar_isDigit d (hlt d hd)
          have htdig := takeDigits_append (ds.map digitChar) rest hdig hnd
          have hmapne : ds.map digitChar ≠ [] := by simpa using hdne
          simp only [List.cons_append]
          simp [parseJsonVal, skipJsonWs, isJsonWsChar, htdig, hmapne]
          rw [digitsToNat_map ds 0 hlt, hof]
          simp only [Nat.zero_mul, Nat.zero_add]
          omega
        · obtain ⟨ds, hpr, hlt, hdne, hof⟩ := printNat_shape n.toNat
          rw [show printInt n = printNat n.toNat from by simp [printInt, hn], hpr]
          obtain ⟨d0, tl, rfl⟩ : ∃ d0 tl, ds = d0 :: tl := by
            cases ds with
            | nil => exact absurd rfl hdne
            | cons a b => exact ⟨a, b, rfl⟩
          have h0 : d0 < 10 := hlt d0 (by simp)
          have hdig : ∀ c ∈ (d0 :: tl).map digitChar, c.isDigit = true := by
            intro c hc
            obtain ⟨d, hd, rfl⟩ := List.mem_map.mp hc
            exact digitChar_isDigit d (hlt d hd)
          have htdig := takeDigits_append ((d0 :: tl).map digitChar) rest hdig hnd
          have hmapne : (d0 :: tl).map digitChar ≠ [] := by simp
          have hskip := skipJsonWs_not_ws (tl.map digitChar ++ rest)
            (digitChar_not_ws d0 h0)
          have hcons : digitChar d0 :: (tl.map digitChar ++ rest)
              = (d0 :: tl).map digitChar ++ rest := by simp
          simp only [List.map_cons, List.cons_append]
          simp [parseJsonVal, hskip, digitChar_ne_n d0 h0, digitChar_ne_t d0 h0,
            digitChar_ne_f d0 h0, digitChar_ne_quote d0 h0,
            digitChar_ne_minus d0 h0, digitChar_ne_lbrack d0 h0,
            digitChar_ne_lbrace d0 h0, digitChar_isDigit d0 h0]
          rw [hcons, htdig]
          simp [hmapne]
          rw [digitsToNat_cons_map d0 tl hlt, hof]
          omega
      | jarr l =>
        cases l with
        | nil =>
          rw [show printJson (.jarr []) = ['[', ']'] from by
            simp [printJson, printElems]]
          simp [parseJsonVal, skipJsonWs, isJsonWsChar]
        | cons x xs =>
          rw [show printJson (.jarr (x :: xs))
              = '[' :: (printElems (x :: xs) ++ [']']) from by simp [printJson]]
          obtain ⟨t1, ht1⟩ := printElems_cons_shape x xs
          have hsh : printElems (x :: xs) ++ ']' :: rest
              = printJson x ++ (t1 ++ ']' :: rest) := by rw [ht1]; simp
          obtain ⟨hskip, hhd1, hhd2⟩ := printJson_append_facts x (t1 ++ ']' :: rest)
          have hfuel : jfuelArr (x :: xs) ≤ f := by
            simp [jfuel] at hle; omega
          simp only [List.cons_append, List.append_assoc, List.singleton_append]
          simp [parseJsonVal, skipJsonWs, isJsonWsChar]
          rw [hsh, hskip, if_neg (by simpa using hhd1)]
          rw [← hsh, ihA (x :: xs) rest (by simp) hfuel]
          rfl
      | jobj kvs =>
        cases kvs with
        | nil =>
          rw [show printJson (.jobj []) = ['\x7b', '\x7d'] from by
            simp [printJson, printObjElems]]
          simp [parseJsonVal, skipJsonWs, isJsonWsChar]
        | cons e tl =>
          obtain ⟨k, v⟩ := e
          rw [show printJson (.jobj ((k, v) :: tl))
              = '\x7b' :: (printObjElems ((k, v) :: tl) ++ ['\x7d']) from by
            simp [printJson]]
          obtain ⟨t1, ht1⟩ := printObjElems_cons_shape k v tl
          have hsh : printObjElems ((k, v) :: tl) ++ '\x7d' :: rest
              = '"' :: (t1 ++ '\x7d' :: rest) := by rw [ht1]; simp
          have hfuel : jfuelObj ((k, v) :: tl) ≤ f := by
            simp [jfuel] at hle; omega
          simp only [List.cons_append, List.append_assoc, List.singleton_append]
          simp [parseJsonVal, skipJsonWs, isJsonWsChar]
          rw [hsh]
          rw [show skipJsonWs ('"' :: (t1 ++ '\x7d' :: rest))
              = '"' :: (t1 ++ '\x7d' :: rest) from by
            simp [skipJsonWs, isJsonWsChar]]
          rw [if_neg (by simp), ← hsh, ihO ((k, v) :: tl) rest (by simp) hfuel]
          rfl
    · -- array elements
      intro l rest hne hle
      obtain ⟨x, xs, rfl⟩ : ∃ x xs, l = x :: xs := by
        cases l with
        | nil => exact absurd rfl hne
        | cons a b => exact ⟨a, b, rfl⟩
      cases xs with
      | nil =>
        rw [show printElems [x] = printJson x from by simp [printElems]]
        have hfx : jfuel x ≤ f := by simp only [jfuelArr] at hle; omega
        simp [parseArrElems]
        rw [ihV x (']' :: rest) hfx (by simp [headNotDigit])]
        simp [skipJsonWs, isJsonWsChar]
      | cons y tl =>
        rw [show printElems (x :: y :: tl)
            = printJson x ++ ',' :: printElems (y :: tl) from by simp [printElems]]
        have hfx : jfuel x ≤ f := by simp only [jfuelArr] at hle; omega
        have hfr : jfuelArr (y :: tl) ≤ f := by
          simp only [jfuelArr] at hle ⊢; omega
        simp only [List.cons_append, List.append_assoc]
        simp [parseArrElems]
        rw [ihV x (',' :: (printElems (y :: tl) ++ ']' :: rest)) hfx
          (by simp [headNotDigit])]
        simp [skipJsonWs, isJsonWsChar]
        rw [ihA (y :: tl) rest (by simp) hfr]
    · -- object members
      intro kvs rest hne hle
      obtain ⟨⟨k, v⟩, tl, rfl⟩ : ∃ e tl, kvs = e :: tl := by
        cases kvs with
        | nil => exact absurd rfl hne
        | cons a b => exact ⟨a, b, rfl⟩
      have hfv : jfuel v ≤ f := by simp only [jfuelObj] at hle; omega
      cases tl with
      | nil =>
        rw [show printObjElems [(k, v)]
            = '"' :: (escList k.data ++ '"' :: ':' :: printJson v) from by
          simp [printObjElems, printKV]]
        simp only [List.cons_append, List.append_assoc]
        simp [parseObjElems, skipJsonWs, isJsonWsChar, parseStrBody_escList]
        rw [ihV v ('\x7d' :: rest) hfv (by simp [headNotDigit])]
        simp [skipJsonWs, isJsonWsChar]
      | cons e2 tl2 =>
        obtain ⟨k2, v2⟩ := e2
        have hfr : jfuelObj ((k2, v2) :: tl2) ≤ f := by
          simp only [jfuelObj] at hle ⊢; omega
        rw [show printObjElems ((k, v) :: (k2, v2) :: tl2)
            = ('"' :: (escList k.data ++ '"' :: ':' :: printJson v))
              ++ ',' :: printObjElems ((k2, v2) :: tl2) from by
          simp [printObjElems, printKV]]
        simp only [List.cons_append, List.append_assoc]
        simp [parseObjElems, skipJsonWs, isJsonWsChar, parseStrBody_escList]
        rw [ihV v (',' :: (printObjElems ((k2, v2) :: tl2) ++ '\x7d' :: rest)) hfv
          (by simp [headNotDigit])]
        simp [skipJsonWs, isJsonWsChar]
        rw [ihO ((k2, v2) :: tl2) rest (by simp) hfr]

theorem sizeOf_json_pos (v : Json) : 0 < sizeOf v := by
  cases v <;> simp

theorem jfuel_le_bound : ∀ (n : Nat),
    (∀ v : Json, sizeOf v ≤ n → jfuel v ≤ (printJson v).length)
    ∧ (∀ l : List Json, sizeOf l ≤ n → l ≠ [] →
        jfuelArr l ≤ (printElems l).length + 1)
    ∧ (∀ kvs : List (String × Json), sizeOf kvs ≤ n → kvs ≠ [] →
        jfuelObj kvs ≤ (printObjElems kvs).length + 1) := by
  intro n
  induction n with
  | zero =>
    refine ⟨fun v h => absurd h ?_, fun l h hne => absurd h ?_,
      fun kvs h hne => absurd h ?_⟩
    · have := sizeOf_json_pos v; omega
    · cases l with
      | nil => exact absurd rfl hne
      | cons x xs => simp
    · cases kvs with
      | nil => exact absurd rfl hne
      | cons e tl => simp
  | succ m ih =>
    obtain ⟨ihV, ihA, ihO⟩ := ih
    refine ⟨?_, ?_, ?_⟩
    · intro v hsz
      cases v with
      | jnull => simp [jfuel, printJson]
      | jbool b => cases b <;> simp [jfuel, printJson]
      | jnum n =>
        have := List.length_pos.mpr (printJson_ne_nil (.jnum n))
        simp only [jfuel]
        omega
      | jstr s =>
        have := List.length_pos.mpr (printJson_ne_nil (.jstr s))
        simp only [jfuel]
        omega
      | jarr l =>
        rw [show printJson (.jarr l) = '[' :: (printElems l ++ [']']) from by
          simp [printJson]]
        cases l with
        | nil => simp [jfuel, jfuelArr, printElems]
        | cons x xs =>
          have hsl : sizeOf (x :: xs : List Json) ≤ m := by
            simp at hsz ⊢; omega
          have h1 := ihA (x :: xs) hsl (by simp)
          simp only [jfuel, List.length_cons, List.length_append,
            List.length_singleton]
          omega
      | jobj kvs =>
        rw [show printJson (.jobj kvs) = '\x7b' :: (printObjElems kvs ++ ['\x7d'])
          from by simp [printJson]]
        cases kvs with
        | nil => simp [jfuel, jfuelObj, printObjElems]
        | cons e tl =>
          have hsl : sizeOf (e :: tl : List (String × Json)) ≤ m := by
            simp at hsz ⊢; omega
          have h1 := ihO (e :: tl) hsl (by simp)
          simp only [jfuel, List.length_cons, List.length_append,
            List.length_singleton]
          omega
    · intro l hsz hne
      obtain ⟨x, xs, rfl⟩ : ∃ x xs, l = x :: xs := by
        cases l with
        | nil => exact absurd rfl hne
        | cons a b => exact ⟨a, b, rfl⟩
      have hx : sizeOf x ≤ m := by simp at hsz; omega
      have hvx := ihV x hx
      have hxpos := List.length_pos.mpr (printJson_ne_nil x)
      cases xs with
      | nil =>
        rw [show printElems [x] = printJson x from by simp [printElems]]
        simp only [jfuelArr]
        omega
      | cons y tl =>
        have hys : sizeOf (y :: tl : List Json) ≤ m := by
          have := sizeOf_json_pos x
          simp at hsz ⊢; omega
        have h1 := ihA (y :: tl) hys (by simp)
        rw [show printElems (x :: y :: tl)
            = printJson x ++ ',' :: printElems (y :: tl) from by simp [printElems]]
        simp only [jfuelArr, List.length_append, List.length_cons]
        simp only [jfuelArr] at h1
        omega
    · intro kvs hsz hne
      obtain ⟨⟨k, v⟩, tl, rfl⟩ : ∃ e tl, kvs = e :: tl := by
        cases kvs with
        | nil => exact absurd rfl hne
        | cons a b => exact ⟨a, b, rfl⟩
      have hv : sizeOf v ≤ m := by simp at hsz; omega
      have hvv := ihV v hv
      have hvpos := List.length_pos.mpr (printJson_ne_nil v)
      cases tl with
      | nil =>
        rw [show printObjElems [(k, v)]
            = '"' :: (escList k.data ++ '"' :: ':' :: printJson v) from by
          simp [printObjElems, printKV]]
        simp only [jfuelObj, List.length_cons, List.length_append]
        omega
      | cons e2 tl2 =>
        have hts : sizeOf (e2 :: tl2 : List (String × Json)) ≤ m := by
          simp at hsz ⊢; omega
        have h1 := ihO (e2 :: tl2) hts (by simp)
        rw [show printObjElems ((k, v) :: e2 :: tl2)
            = ('"' :: (escList k.data ++ '"' :: ':' :: printJson v))
              ++ ',' :: printObjElems (e2 :: tl2) from by
          simp [printObjElems, printKV]]
        simp only [jfuelObj, List.length_append, List.length_cons]
        simp only [jfuelObj] at h1
        omega

/-- Parsing inverts printing: `serde_json::from_str (serde_json::to_string v)`
recovers `v`. -/
theorem jsonFromStr_print (v : Json) : jsonFromStr (jsonToString v) = some v := by
  have hle : jfuel v ≤ (printJson v).length + 2 := by
    have h1 := (jfuel_le_bound (sizeOf v)).1 v (le_refl _)
    omega
  have h := (parse_print_roundtrip ((printJson v).length + 2)).1 v [] hle
    (by simp [headNotDigit])
  rw [List.append_nil] at h
  unfold jsonFromStr jsonToString
  rw [show (String.mk (printJson v)).data = printJson v from rfl]
  rw [h]
  simp [skipJsonWs]

/-! ## Shared data types (src/types.rs) -/

inductive Role where
  | System
  | User
  | Assistant
  | Tool
deriving DecidableEq

structure ToolCall where
  id : String
  name : String
  input : Json

structure Message where
  role : Role
  content : String
  thinking : Option String
  tool_call_id : Option String
  tool_calls : List ToolCall

structure Tool where
  name : String
  description : String
  input_schema : Json

structure Usage where
  prompt_tokens : Int
  completion_tokens : Int
  total_tokens : Int

/-- `TokenUsage` from src/core/agent.rs (`i32` modelled as `Int`). -/
structure TokenUsage where
  prompt : Int
  completion : Int
  total : Int

/-- `BashResult` from src/policy_bash.rs. -/
structure BashResult where
  stdout : String
  stderr : String
  code : Int

/-- `ChatResponse` from src/core/providers/mod.rs (`raw_headers` as an
association list). -/
structure ChatResponse where
  message : Message
  usage : Option Usage
  raw_usage : Option Json
  raw_request : Json
  raw_headers : Option (List (String × String))

/-- `bash_tool()` from src/tools/bash.rs. -/
def bash_tool : Tool :=
  { name := "bash"
    description := "Execute a shell command in the workspace."
    input_schema := .jobj [
      ("type", .jstr "object"),
      ("properties", .jobj [
        ("command", .jobj [
          ("type", .jstr "string"),
          ("description", .jstr "Shell command to run.")])]),
      ("required", .jarr [.jstr "command"])] }

/-! ## Agent (src/core/agent.rs)

The provider is modelled as a list of responses consumed in order (one per
`create_chat_completion` call), the approval callback as a function
`String → Except String Bool`, and `run_bash` as a function
`String → BashResult`.  UI printing and the debug-log callback have no
effect on agent state and are not modelled. -/

structure AgentState where
  messages : List Message
  session_tokens : TokenUsage

def systemMessage (prompt : String) : Message :=
  ⟨.System, prompt, none, none, []⟩

/-- `Agent::new`: the message list starts as exactly one System message
built from the configured system prompt; token counters start at zero. -/
def agentNew (system_prompt : String) : AgentState :=
  ⟨[systemMessage system_prompt], ⟨0, 0, 0⟩⟩

/-- `Agent::add_user_message`. -/
def add_user_message (st : AgentState) (content : String) : AgentState :=
  { st with messages := st.messages ++ [⟨.User, content, none, none, []⟩] }

/-- `Agent::clear`: truncate to the first message when non-empty. -/
def agent_clear (st : AgentState) : AgentState :=
  if st.messages.isEmpty then st else { st with messages := st.messages.take 1 }

/-- `extract_command` from src/core/agent.rs. -/
def extract_command (input : Json) : String :=
  match input with
  | .jstr value =>
    (match jsonFromStr value with
     | some parsed =>
       match valueGet parsed "command" with
       | some (.jstr cmd) => cmd
       | _ => value
     | none => value)
  | .jobj members =>
    (match objGet members "command" with
     | some (.jstr cmd) => cmd
     | _ => "")
  | _ => ""

/-- `map_provider_error` from src/core/agent.rs. -/
def map_provider_error (err : String) : String :=
  if strContains err "401" then "Invalid API key."
  else if strContains err "429" then "Rate limit exceeded. Wait and retry."
  else if strContains err "ECONNREFUSED" || strContains err "ENOTFOUND" then
    "Network error. Check your connection."
  else err

/-- The JSON payload built for an executed command's Tool message. -/
def toolPayload (command : String) (result : BashResult) : Json :=
  .jobj [
    ("command", .jstr command),
    ("exitCode", .jnum result.code),
    ("stdout", .jstr result.stdout),
    ("stderr", .jstr result.stderr)]

/-- `Agent::handle_bash_tool`, instrumented: besides the Tool message it
returns whether `run_bash` ran (first Boolean, set exactly where the source
calls `run_bash`) and whether the approval callback was invoked (second
Boolean, set exactly where the source calls `prompt_approval`). -/
def handle_bash_tool (cfg : Config) (approval : String → Except String Bool)
    (bash : String → BashResult) (command : String) (call_id : String) :
    Message × Bool × Bool :=
  match check_policy command cfg with
  | .Deny =>
    (⟨.Tool, "Command denied by policy.", none, some call_id, []⟩, false, false)
  | .Auto =>
    let result := bash command
    (⟨.Tool, jsonToStringPretty (toolPayload command result), none,
      some call_id, []⟩, true, false)
  | .Ask =>
    match approval command with
    | .ok true =>
      let result := bash command
      (⟨.Tool, jsonToStringPretty (toolPayload command result), none,
        some call_id, []⟩, true, true)
    | .ok false =>
      (⟨.Tool, "User rejected command.", none, some call_id, []⟩, false, true)
    | .error _ =>
      (⟨.Tool, "User rejected command.", none, some call_id, []⟩, false, true)

/-- `Agent::handle_tool_calls`: one Tool message per call, in order. -/
def handle_tool_calls (cfg : Config) (approval : String → Except String Bool)
    (bash : String → BashResult) (calls : List ToolCall) : List Message :=
  calls.map fun call =>
    if call.name ≠ "bash" then
      ⟨.Tool, "Unknown tool: " ++ call.name, none, some call.id, []⟩
    else
      let command := extract_command call.input
      if command = "" then
        ⟨.Tool, "No command provided.", none, some call.id, []⟩
      else
        (handle_bash_tool cfg approval bash command call.id).1

/-- The token-counter update at the top of each `run_agent_turn` iteration. -/
def addUsage (t : TokenUsage) (usage : Option Usage) : TokenUsage :=
  match usage with
  | none => t
  | some u =>
    ⟨t.prompt + u.prompt_tokens, t.completion + u.completion_tokens,
      t.total + u.total_tokens⟩

/-- `Agent::run_agent_turn`.  The third component counts provider calls
made.  An exhausted response list is a modelling artifact (a real provider
always answers); it ends the turn with a distinguished error. -/
def run_agent_turn (cfg : Config) (approval : String → Except String Bool)
    (bash : String → BashResult) (st : AgentState)
    (responses : List (Except String ChatResponse)) :
    AgentState × Except String Unit × Nat :=
  match responses with
  | [] => (st, .error "no provider response", 0)
  | response :: rest =>
    match response with
    | .error e => (st, .error (map_provider_error e), 1)
    | .ok resp =>
      let st1 := { st with session_tokens := addUsage st.session_tokens resp.usage }
      let assistant := resp.message
      let st2 := { st1 with messages := st1.messages ++ [assistant] }
      if assistant.tool_calls.isEmpty then (st2, .ok (), 1)
      else
        let tool_results := handle_tool_calls cfg approval bash assistant.tool_calls
        let st3 := { st2 with messages := st2.messages ++ tool_results }
        let r := run_agent_turn cfg approval bash st3 rest
        (r.1, r.2.1, r.2.2 + 1)

/-! ## OpenAI adapter (src/core/providers/openai.rs)

Only the pure request-building and response-handling parts are embedded;
the HTTP transport is a collaborator.  `openai_handle_response` covers
lines 144-212 of the source: the status/error ladder followed by message,
tool-call and usage extraction. -/

structure OpenAIToolFunction where
  name : String
  arguments : String

structure OpenAIToolCall where
  id : String
  call_type : String
  function : OpenAIToolFunction

structure OpenAIMessage where
  role : String
  content : String
  tool_call_id : Option String
  tool_calls : List OpenAIToolCall

structure OpenAIUsage where
  prompt_tokens : Int
  completion_tokens : Int
  total_tokens : Int

structure OpenAIError where
  message : Option String

structure OpenAIResponseMessage where
  role : String
  content : Option String
  tool_calls : List OpenAIToolCall

structure OpenAIChoice where
  message : OpenAIResponseMessage

structure OpenAIResponse where
  choices : List OpenAIChoice
  usage : Option OpenAIUsage
  error : Option OpenAIError

/-- `to_openai_messages`: Tool messages carry the `tool_call_id`
back-reference; an Assistant message's tool calls serialize their
structured input as a JSON string under a function-call object. -/
def to_openai_messages (messages : List Message) : List OpenAIMessage :=
  messages.map fun message =>
    match message.role with
    | .Tool => ⟨"tool", message.content, message.tool_call_id, []⟩
    | .Assistant =>
      if !message.tool_calls.isEmpty then
        ⟨"assistant", message.content, none,
          message.tool_calls.map fun call =>
            ⟨call.id, "function", ⟨call.name, jsonToString call.input⟩⟩⟩
      else ⟨"assistant", message.content, none, []⟩
    | .System => ⟨"system", message.content, none, []⟩
    | .User => ⟨"user", message.content, none, []⟩

/-- `parse_tool_input`: stringified arguments back to structured JSON,
falling back to a plain string value, never failing. -/
def parse_tool_input (raw : String) : Json :=
  if raw = "" then .jobj []
  else
    match jsonFromStr raw with
    | some v => v
    | none => .jstr raw

def openaiUsageJson (u : OpenAIUsage) : Json :=
  .jobj [
    ("prompt_tokens", .jnum u.prompt_tokens),
    ("completion_tokens", .jnum u.completion_tokens),
    ("total_tokens", .jnum u.total_tokens)]

/-- Response handling from `OpenAIProvider::create_chat_completion`
(after the body has been decoded): the status/error ladder, first-choice
extraction, `"function"`-call filtering, argument parsing, and usage
pass-through. -/
def openai_handle_response (rawReq : Json) (statusSuccess : Bool)
    (statusCode : Nat) (decoded : OpenAIResponse) : Except String ChatResponse :=
  if statusSuccess = false then
    match decoded.error.bind (fun e => e.message) with
    | some err =>
      .error (err ++ " (status " ++ toString statusCode ++ ")")
    | none => .error ("request failed with status " ++ toString statusCode)
  else
    match decoded.error.bind (fun e => e.message) with
    | some err => .error err
    | none =>
      let content :=
        match decoded.choices.head? with
        | some choice => choice.message.content.getD ""
        | none => ""
      let tool_calls :=
        match decoded.choices.head? with
        | some choice =>
          (choice.message.tool_calls.filter
            (fun call => call.call_type == "function")).map
            (fun call =>
              ToolCall.mk call.id call.function.name
                (parse_tool_input call.function.arguments))
        | none => []
      let message : Message := ⟨.Assistant, content, none, none, tool_calls⟩
      .ok
        { message := message
          usage := decoded.usage.map fun u =>
            ⟨u.prompt_tokens, u.completion_tokens, u.total_tokens⟩
          raw_usage := decoded.usage.map openaiUsageJson
          raw_request := rawReq
          raw_headers := none }

/-! ## Anthropic adapter (src/core/providers/anthropic.rs)

Content blocks are kept structured (`serde_json::to_value` of a block is
injective, so the wire array of serialized blocks is modelled as the list
of blocks themselves). -/

structure ABlock where
  block_type : String
  text : Option String
  thinking : Option String
  id : Option String
  tool_use_id : Option String
  name : Option String
  input : Option Json
  content : Option Json
  cache_control : Option (List (String × String))

/-- An Anthropic message body: either a plain string or a block array. -/
inductive AContent where
  | sstr (s : String)
  | blocks (l : List ABlock)

structure AnthropicMessage where
  role : String
  content : AContent

structure AnthropicUsage where
  input_tokens : Int
  output_tokens : Int

structure AnthropicError where
  message : Option String

structure AnthropicResponse where
  content : List ABlock
  usage : Option AnthropicUsage
  error : Option AnthropicError

def ephemeralCache : List (String × String) := [("type", "ephemeral")]

def emptyABlock : ABlock :=
  ⟨"", none, none, none, none, none, none, none, none⟩

/-- The `text`-type block used for system content. -/
def textCacheBlock (text : String) : ABlock :=
  { emptyABlock with
    block_type := "text"
    text := some text
    cache_control := some ephemeralCache }

/-- The index of the most recent non-Assistant message, `-1` when none
(the reversed-enumerate loop of the source). -/
def lastCacheableIndex (msgs : List Message) : Int :=
  match ((msgs.enum.filter (fun p => !(p.2.role == .Assistant))).map
      (fun p => (p.1 : Int))).getLast? with
  | some i => i
  | none => -1

/-- `to_anthropic_messages`: System contents are joined into top-level
system blocks; Tool messages become user `tool_result` blocks; Assistant
messages with tool calls carry one `tool_use` block per call with id,
name and input verbatim; the most recent non-Assistant message gets an
ephemeral cache hint when message caching is enabled. -/
def to_anthropic_messages (messages : List Message) (enable_message_cache : Bool) :
    List ABlock × List AnthropicMessage :=
  let system_parts :=
    (messages.filter (fun m => m.role == .System)).map (fun m => m.content)
  let system_text := rustTrim (String.intercalate "\n\n" system_parts)
  let system_blocks := if system_text ≠ "" then [textCacheBlock system_text] else []
  let filtered := messages.filter (fun m => !(m.role == .System))
  let last_cacheable_index := lastCacheableIndex filtered
  let out := filtered.enum.map fun p =>
    let index := p.1
    let message := p.2
    let is_last_cacheable := (index : Int) = last_cacheable_index
    let should_cache := enable_message_cache && is_last_cacheable
    match message.role with
    | .Tool =>
      let block : ABlock :=
        { emptyABlock with
          block_type := "tool_result"
          tool_use_id := message.tool_call_id
          content := some (.jstr message.content)
          cache_control := if should_cache then some ephemeralCache else none }
      AnthropicMessage.mk "user" (.blocks [block])
    | .Assistant =>
      if !message.tool_calls.isEmpty then
        let text_blocks : List ABlock :=
          if message.content ≠ "" then
            [{ emptyABlock with
               block_type := "text"
               text := some message.content }]
          else []
        let use_blocks : List ABlock := message.tool_calls.map fun call =>
          { emptyABlock with
            block_type := "tool_use"
            id := some call.id
            name := some call.name
            input := some call.input }
        AnthropicMessage.mk "assistant" (.blocks (text_blocks ++ use_blocks))
      else AnthropicMessage.mk "assistant" (.sstr message.content)
    | .User =>
      if should_cache then
        let block : ABlock :=
          { emptyABlock with
            block_type := "text"
            text := some message.content
            cache_control := some ephemeralCache }
        AnthropicMessage.mk "user" (.blocks [block])
      else AnthropicMessage.mk "user" (.sstr message.content)
    | .System => AnthropicMessage.mk "system" (.sstr message.content)
  (system_blocks, out)

/-- `normalize_anthropic_base_url`: strip trailing slashes, then a
trailing `/v1`. -/
def normalize_anthropic_base_url (base_url : String) : String :=
  let trimmed := String.mk (base_url.data.reverse.dropWhile (fun c => c = '/')).reverse
  if trimmed.data.reverse.take 3 = ['1', 'v', '/'] then
    String.mk (trimmed.data.dropLast.dropLast.dropLast)
  else trimmed

def anthropicUsageJson (u : AnthropicUsage) : Json :=
  .jobj [
    ("input_tokens", .jnum u.input_tokens),
    ("output_tokens", .jnum u.output_tokens)]

/-- Response handling from `AnthropicProvider::create_chat_completion`
(after the body has been decoded): the status/error ladder, block
folding (thinking / text / tool_use) and usage normalization
(`total = input + output`). -/
def anthropic_handle_response (rawReq : Json) (provider_name : String)
    (statusSuccess : Bool) (statusCode : Nat) (decoded : AnthropicResponse) :
    Except String ChatResponse :=
  if statusSuccess = false then
    match decoded.error.bind (fun e => e.message) with
    | some err => .error (err ++ " (status " ++ toString statusCode ++ ")")
    | none => .error ("request failed with status " ++ toString statusCode)
  else
    match decoded.error.bind (fun e => e.message) with
    | some err => .error err
    | none =>
      let tool_calls := decoded.content.filterMap fun block =>
        if block.block_type == "tool_use" then
          match block.id, block.name, block.input with
          | some i, some n, some inp => some (ToolCall.mk i n inp)
          | _, _, _ => none
        else none
      let thinking_parts := decoded.content.filterMap fun block =>
        if block.block_type == "thinking" then block.thinking else none
      let text_parts := decoded.content.filterMap fun block =>
        if block.block_type == "text" then block.text else none
      let message : Message :=
        ⟨.Assistant, String.join text_parts,
          if thinking_parts ≠ [] then some (String.join thinking_parts) else none,
          none, tool_calls⟩
      let headers :=
        if provider_name == "anthropic" || provider_name == "minimax" then
          [("anthropic-beta", "prompt-caching-2024-07-31")]
        else []
      .ok
        { message := message
          usage := decoded.usage.map fun u =>
            ⟨u.input_tokens, u.output_tokens, u.input_tokens + u.output_tokens⟩
          raw_usage := decoded.usage.map anthropicUsageJson
          raw_request := rawReq
          raw_headers := if headers.isEmpty then none else some headers }

/-- Claim C2: a Deny-classified command is never executed and yields the
"Command denied by policy." Tool message; the approval callback runs
exactly for Ask-classified commands; an Ask-classified command executes
only on an `ok true` approval, and a rejection or a cancellation error
yields "User rejected command." without execution; Auto-classified
commands execute without consulting the approval callback. -/
theorem handle_bash_tool_policy_gate (cfg : Config)
    (approval : String → Except String Bool) (bash : String → BashResult)
    (command call_id : String) :
    (check_policy command cfg = .Deny →
      handle_bash_tool cfg approval bash command call_id
        = (⟨.Tool, "Command denied by policy.", none, some call_id, []⟩,
            false, false))
    ∧ ((handle_bash_tool cfg approval bash command call_id).2.2 = true
        ↔ check_policy command cfg = .Ask)
    ∧ (check_policy command cfg = .Ask → approval command = .ok true →
        (handle_bash_tool cfg approval bash command call_id).2.1 = true)
    ∧ (check_policy command cfg = .Ask →
        (approval command = .ok false ∨ ∃ e, approval command = .error e) →
        (handle_bash_tool cfg approval bash command call_id).2.1 = false
        ∧ (handle_bash_tool cfg approval bash command call_id).1
            = ⟨.Tool, "User rejected command.", none, some call_id, []⟩)
    ∧ (check_policy command cfg = .Auto →
        (handle_bash_tool cfg approval bash command call_id).2.1 = true
        ∧ (handle_bash_tool cfg approval bash command call_id).2.2 = false) := by
  cases hp : check_policy command cfg with
  | Deny => simp [handle_bash_tool, hp]
  | Auto => simp [handle_bash_tool, hp]
  | Ask =>
    cases ha : approval command with
    | error e => simp [handle_bash_tool, hp, ha]
    | ok b => cases b <;> simp [handle_bash_tool, hp, ha]

theorem handle_bash_tool_policy_gate_witness :
    check_policy "cat .env" ⟨⟨"ask", [], []⟩⟩ = .Deny
    ∧ handle_bash_tool ⟨⟨"ask", [], []⟩⟩ (fun _ => .ok true)
        (fun _ => ⟨"", "", 0⟩) "cat .env" "call_1"
      = (⟨.Tool, "Command denied by policy.", none, some "call_1", []⟩,
          false, false) := by
  refine ⟨by decide, ?_⟩
  exact (handle_bash_tool_policy_gate ⟨⟨"ask", [], []⟩⟩ (fun _ => .ok true)
    (fun _ => ⟨"", "", 0⟩) "cat .env" "call_1").1 (by decide)

/-- Claim C4: a provider error aborts the turn at once, leaving message
history and session token counters untouched, and the error string is
categorized: "401" to invalid API key, then "429" to the rate-limit
message, then ECONNREFUSED or ENOTFOUND to the network message, anything
else verbatim. -/
theorem run_agent_turn_provider_error (cfg : Config)
    (approval : String → Except String Bool) (bash : String → BashResult)
    (st : AgentState) (e : String) (rest : List (Except String ChatResponse)) :
    run_agent_turn cfg approval bash st (.error e :: rest)
      = (st, .error (map_provider_error e), 1)
    ∧ (strContains e "401" = true → map_provider_error e = "Invalid API key.")
    ∧ (strContains e "401" = false → strContains e "429" = true →
        map_provider_error e = "Rate limit exceeded. Wait and retry.")
    ∧ (strContains e "401" = false → strContains e "429" = false →
        (strContains e "ECONNREFUSED" = true ∨ strContains e "ENOTFOUND" = true) →
        map_provider_error e = "Network error. Check your connection.")
    ∧ (strContains e "401" = false → strContains e "429" = false →
        strContains e "ECONNREFUSED" = false → strContains e "ENOTFOUND" = false →
        map_provider_error e = e) := by
  refine ⟨rfl, ?_, ?_, ?_, ?_⟩
  · intro h1; simp [map_provider_error, h1]
  · intro h1 h2; simp [map_provider_error, h1, h2]
  · intro h1 h2 h3; simp [map_provider_error, h1, h2]
    cases h3 with
    | inl h => simp [h]
    | inr h => simp [h]
  · intro h1 h2 h3 h4; simp [map_provider_error, h1, h2, h3, h4]

theorem run_agent_turn_provider_error_witness :
    run_agent_turn ⟨⟨"ask", [], []⟩⟩ (fun _ => .ok true) (fun _ => ⟨"", "", 0⟩)
        (agentNew "sys") [.error "HTTP 401 unauthorized"]
      = (agentNew "sys", .error "Invalid API key.", 1)
    ∧ map_provider_error "HTTP 401 unauthorized" = "Invalid API key." := by
  have h := run_agent_turn_provider_error ⟨⟨"ask", [], []⟩⟩ (fun _ => .ok true)
    (fun _ => ⟨"", "", 0⟩) (agentNew "sys") "HTTP 401 unauthorized" []
  have hmap := h.2.1 (by decide)
  exact ⟨by rw [h.1, hmap], hmap⟩

/-- The Tool message built by `handle_bash_tool` always has the Tool role
and echoes the call id. -/
theorem handle_bash_tool_msg_shape (cfg : Config)
    (approval : String → Except String Bool) (bash : String → BashResult)
    (command call_id : String) :
    (handle_bash_tool cfg approval bash command call_id).1.role = .Tool
    ∧ (handle_bash_tool cfg approval bash command call_id).1.tool_call_id
        = some call_id := by
  cases hp : check_policy command cfg with
  | Deny => simp [handle_bash_tool, hp]
  | Auto => simp [handle_bash_tool, hp]
  | Ask =>
    cases ha : approval command with
    | error e => simp [handle_bash_tool, hp, ha]
    | ok b => cases b <;> simp [handle_bash_tool, hp, ha]

/-- Claim C7: `handle_tool_calls` yields exactly one Tool-role message per
call, in call order, carrying each call's id; a non-"bash" name yields the
"Unknown tool:" diagnostic and an empty extracted command yields
"No command provided.", without aborting. -/
theorem handle_tool_calls_per_call (cfg : Config)
    (approval : String → Except String Bool) (bash : String → BashResult)
    (calls : List ToolCall) :
    (handle_tool_calls cfg approval bash calls).length = calls.length
    ∧ ∀ (i : Nat) (call : ToolCall), calls[i]? = some call →
        ∃ m, (handle_tool_calls cfg approval bash calls)[i]? = some m
          ∧ m.role = .Tool
          ∧ m.tool_call_id = some call.id
          ∧ (call.name ≠ "bash" → m.content = "Unknown tool: " ++ call.name)
          ∧ (call.name = "bash" → extract_command call.input = "" →
              m.content = "No command provided.") := by
  constructor
  · simp [handle_tool_calls]
  · intro i call hc
    simp only [handle_tool_calls, List.getElem?_map, hc, Option.map_some']
    refine ⟨_, rfl, ?_, ?_, ?_, ?_⟩
    · by_cases hname : call.name = "bash"
      · by_cases hcmd : extract_command call.input = ""
        · simp [hname, hcmd]
        · simp [hname, hcmd,
            (handle_bash_tool_msg_shape cfg approval bash
              (extract_command call.input) call.id).1]
      · simp [hname]
    · by_cases hname : call.name = "bash"
      · by_cases hcmd : extract_command call.input = ""
        · simp [hname, hcmd]
        · simp [hname, hcmd,
            (handle_bash_tool_msg_shape cfg approval bash
              (extract_command call.input) call.id).2]
      · simp [hname]
    · intro hname; simp [hname]
    · intro hname hcmd; simp [hname, hcmd]

theorem handle_tool_calls_per_call_witness :
    ∃ m, (handle_tool_calls ⟨⟨"ask", [], []⟩⟩ (fun _ => .ok true)
        (fun _ => ⟨"", "", 0⟩) [⟨"c9", "browser", .jobj []⟩])[0]? = some m
      ∧ m.role = .Tool ∧ m.tool_call_id = some "c9"
      ∧ m.content = "Unknown tool: browser" := by
  obtain ⟨m, h1, h2, h3, h4, _⟩ := (handle_tool_calls_per_call ⟨⟨"ask", [], []⟩⟩
    (fun _ => .ok true) (fun _ => ⟨"", "", 0⟩)
    [⟨"c9", "browser", .jobj []⟩]).2 0 ⟨"c9", "browser", .jobj []⟩ (by rfl)
  exact ⟨m, h1, h2, h3, h4 (by decide)⟩

/-- Claim C10: command extraction from a bash tool call's input: an object
uses its string "command" field (empty when absent or non-string); a string
that parses as JSON with a string "command" field uses that nested value,
otherwise the raw string itself; any other input kind yields the empty
command and hence the "No command provided." diagnostic. -/
theorem extract_command_spec (members : List (String × Json)) (s cmd : String)
    (v : Json) (b : Bool) (n : Int) (l : List Json) (cid : String) (cfg : Config)
    (approval : String → Except String Bool) (bash : String → BashResult) :
    (objGet members "command" = some (.jstr cmd) →
      extract_command (.jobj members) = cmd)
    ∧ (objGet members "command" = none → extract_command (.jobj members) = "")
    ∧ (∀ j, objGet members "command" = some j → (∀ t, j ≠ .jstr t) →
        extract_command (.jobj members) = "")
    ∧ (jsonFromStr s = some v → valueGet v "command" = some (.jstr cmd) →
        extract_command (.jstr s) = cmd)
    ∧ (jsonFromStr s = none → extract_command (.jstr s) = s)
    ∧ (jsonFromStr s = some v → (∀ t, valueGet v "command" ≠ some (.jstr t)) →
        extract_command (.jstr s) = s)
    ∧ extract_command .jnull = ""
    ∧ extract_command (.jbool b) = ""
    ∧ extract_command (.jnum n) = ""
    ∧ extract_command (.jarr l) = ""
    ∧ (∀ input, extract_command input = "" →
        handle_tool_calls cfg approval bash [⟨cid, "bash", input⟩]
          = [⟨.Tool, "No command provided.", none, some cid, []⟩]) := by
  refine ⟨?_, ?_, ?_, ?_, ?_, ?_, rfl, rfl, rfl, rfl, ?_⟩
  · intro h; simp [extract_command, h]
  · intro h; simp [extract_command, h]
  · intro j hget hnstr
    cases j with
    | jstr t => exact absurd rfl (hnstr t)
    | jnull => simp [extract_command, hget]
    | jbool b2 => simp [extract_command, hget]
    | jnum n2 => simp [extract_command, hget]
    | jarr l2 => simp [extract_command, hget]
    | jobj m2 => simp [extract_command, hget]
  · intro hp hg; simp [extract_command, hp, hg]
  · intro hp; simp [extract_command, hp]
  · intro hp hng
    cases hvg : valueGet v "command" with
    | none => simp [extract_command, hp, hvg]
    | some j =>
      cases j with
      | jstr t => exact absurd hvg (hng t)
      | jnull => simp [extract_command, hp, hvg]
      | jbool b2 => simp [extract_command, hp, hvg]
      | jnum n2 => simp [extract_command, hp, hvg]
      | jarr l2 => simp [extract_command, hp, hvg]
      | jobj m2 => simp [extract_command, hp, hvg]
  · intro input h; simp [handle_tool_calls, h]

theorem extract_command_spec_witness :
    extract_command (.jobj [("command", .jstr "ls")]) = "ls"
    ∧ extract_command (.jstr "\x7b\"command\": \"pwd\"\x7d") = "pwd"
    ∧ extract_command (.jstr "plain text") = "plain text"
    ∧ extract_command (.jnum 7) = ""
    ∧ handle_tool_calls ⟨⟨"ask", [], []⟩⟩ (fun _ => .ok true)
        (fun _ => ⟨"", "", 0⟩) [⟨"c2", "bash", .jnull⟩]
      = [⟨.Tool, "No command provided.", none, some "c2", []⟩] := by
  have h1 := extract_command_spec [("command", .jstr "ls")] "x" "ls" .jnull true 7
    [] "c2" ⟨⟨"ask", [], []⟩⟩ (fun _ => .ok true) (fun _ => ⟨"", "", 0⟩)
  have h2 := extract_command_spec [] "\x7b\"command\": \"pwd\"\x7d" "pwd"
    (.jobj [("command", .jstr "pwd")]) true 7 [] "c2" ⟨⟨"ask", [], []⟩⟩
    (fun _ => .ok true) (fun _ => ⟨"", "", 0⟩)
  have h3 := extract_command_spec [] "plain text" "x" .jnull true 7 [] "c2"
    ⟨⟨"ask", [], []⟩⟩ (fun _ => .ok true) (fun _ => ⟨"", "", 0⟩)
  refine ⟨h1.1 (by rfl), h2.2.2.2.1 (by rfl) (by rfl), h3.2.2.2.2.1 (by rfl),
    h1.2.2.2.2.2.2.2.2.1, ?_⟩
  exact (h1.2.2.2.2.2.2.2.2.2.2) .jnull (by rfl)

/-- Claim C5: with no tool calls in the first reply, one provider call is
made and exactly one Assistant message is appended; with one tool call in
the first reply and none in the second, two provider calls are made and
the history grows by the first Assistant message, one Tool message, and
the second Assistant message, in that order. -/
theorem run_agent_turn_counts (cfg : Config)
    (approval : String → Except String Bool) (bash : String → BashResult)
    (st : AgentState) (r0 r1 : ChatResponse)
    (rest : List (Except String ChatResponse)) (tc : ToolCall) :
    (r0.message.tool_calls = [] →
      run_agent_turn cfg approval bash st (.ok r0 :: rest)
        = ({ messages := st.messages ++ [r0.message],
             session_tokens := addUsage st.session_tokens r0.usage },
           .ok (), 1))
    ∧ (r0.message.tool_calls = [tc] → r1.message.tool_calls = [] →
        ∃ m, handle_tool_calls cfg approval bash [tc] = [m]
          ∧ m.role = .Tool
          ∧ run_agent_turn cfg approval bash st (.ok r0 :: .ok r1 :: rest)
            = ({ messages := st.messages ++ [r0.message, m, r1.message],
                 session_tokens :=
                   addUsage (addUsage st.session_tokens r0.usage) r1.usage },
               .ok (), 2)) := by
  constructor
  · intro h0
    simp [run_agent_turn, h0]
  · intro h0 h1
    refine ⟨_, rfl, ?_, ?_⟩
    · by_cases hname : tc.name = "bash"
      · by_cases hcmd : extract_command tc.input = ""
        · simp [hname, hcmd]
        · simp [hname, hcmd,
            (handle_bash_tool_msg_shape cfg approval bash
              (extract_command tc.input) tc.id).1]
      · simp [hname]
    · simp [run_agent_turn, h0, h1, handle_tool_calls]

theorem run_agent_turn_counts_witness :
    ∃ m, run_agent_turn ⟨⟨"ask", [], []⟩⟩ (fun _ => .ok true)
        (fun _ => ⟨"", "", 0⟩) (agentNew "sys")
        [.ok ⟨⟨.Assistant, "hi", none, none, [⟨"c1", "browser", .jnull⟩]⟩,
            none, none, .jnull, none⟩,
         .ok ⟨⟨.Assistant, "done", none, none, []⟩, none, none, .jnull, none⟩]
      = ({ messages := (agentNew "sys").messages
             ++ [⟨.Assistant, "hi", none, none, [⟨"c1", "browser", .jnull⟩]⟩,
                 m, ⟨.Assistant, "done", none, none, []⟩],
           session_tokens := ⟨0, 0, 0⟩ },
         .ok (), 2)
      ∧ m.role = .Tool := by
  obtain ⟨m, hm, hrole, hrun⟩ := (run_agent_turn_counts ⟨⟨"ask", [], []⟩⟩
    (fun _ => .ok true) (fun _ => ⟨"", "", 0⟩) (agentNew "sys")
    ⟨⟨.Assistant, "hi", none, none, [⟨"c1", "browser", .jnull⟩]⟩,
      none, none, .jnull, none⟩
    ⟨⟨.Assistant, "done", none, none, []⟩, none, none, .jnull, none⟩
    [] ⟨"c1", "browser", .jnull⟩).2 rfl rfl
  exact ⟨m, by rw [hrun]; rfl, hrole⟩

/-- The turn loop only ever appends to the message history. -/
theorem run_agent_turn_append_only (cfg : Config)
    (approval : String → Except String Bool) (bash : String → BashResult) :
    ∀ (responses : List (Except String ChatResponse)) (st : AgentState),
    ∃ tail, (run_agent_turn cfg approval bash st responses).1.messages
      = st.messages ++ tail := by
  intro responses
  induction responses with
  | nil => intro st; exact ⟨[], by simp [run_agent_turn]⟩
  | cons r rest ih =>
    intro st
    cases r with
    | error e => exact ⟨[], by simp [run_agent_turn]⟩
    | ok resp =>
      by_cases hemp : resp.message.tool_calls.isEmpty
      · exact ⟨[resp.message], by simp [run_agent_turn, hemp]⟩
      · obtain ⟨t, ht⟩ := ih
          { messages := (st.messages ++ [resp.message])
              ++ handle_tool_calls cfg approval bash resp.message.tool_calls
            session_tokens := addUsage st.session_tokens resp.usage }
        refine ⟨[resp.message]
          ++ handle_tool_calls cfg approval bash resp.message.tool_calls ++ t, ?_⟩
        simp only [run_agent_turn, hemp]
        simp at ht ⊢
        simp [ht]

/-- States reachable through the public agent operations. -/
inductive Reachable (prompt : String) : AgentState → Prop where
  | init : Reachable prompt (agentNew prompt)
  | user_msg (st : AgentState) (content : String) :
      Reachable prompt st → Reachable prompt (add_user_message st content)
  | turn (st : AgentState) (cfg : Config)
      (approval : String → Except String Bool) (bash : String → BashResult)
      (responses : List (Except String ChatResponse)) :
      Reachable prompt st →
      Reachable prompt (run_agent_turn cfg approval bash st responses).1
  | cleared (st : AgentState) :
      Reachable prompt st → Reachable prompt (agent_clear st)

/-- Claim C6: in every reachable agent state, the message list is
non-empty with the construction-time System message at element 0;
`add_user_message` and `run_agent_turn` only append; `clear` truncates to
exactly that System message. -/
theorem agent_message_invariants (prompt : String) (st : AgentState)
    (h : Reachable prompt st) :
    (st.messages ≠ [] ∧ st.messages.head? = some (systemMessage prompt))
    ∧ (∀ c, (add_user_message st c).messages
        = st.messages ++ [⟨.User, c, none, none, []⟩])
    ∧ (∀ cfg approval bash responses, ∃ tail,
        (run_agent_turn cfg approval bash st responses).1.messages
          = st.messages ++ tail)
    ∧ (agent_clear st).messages = [systemMessage prompt] := by
  have hinv : st.messages ≠ [] ∧ st.messages.head? = some (systemMessage prompt) := by
    induction h with
    | init => simp [agentNew]
    | user_msg st2 c hr ih =>
      obtain ⟨hne, hhd⟩ := ih
      constructor
      · simp [add_user_message]
      · rw [show (add_user_message st2 c).messages
            = st2.messages ++ [⟨.User, c, none, none, []⟩] from rfl]
        rw [List.head?_append_of_ne_nil _ hne]
        exact hhd
    | turn st2 cfg approval bash responses hr ih =>
      obtain ⟨hne, hhd⟩ := ih
      obtain ⟨tail, htail⟩ := run_agent_turn_append_only cfg approval bash
        responses st2
      constructor
      · rw [htail]; simp [hne]
      · rw [htail, List.head?_append_of_ne_nil _ hne]
        exact hhd
    | cleared st2 hr ih =>
      obtain ⟨hne, hhd⟩ := ih
      obtain ⟨m0, tl, hm⟩ : ∃ m0 tl, st2.messages = m0 :: tl := by
        cases hx : st2.messages with
        | nil => exact absurd hx hne
        | cons a b => exact ⟨a, b, rfl⟩
      have hm0 : m0 = systemMessage prompt := by
        rw [hm] at hhd; simpa using hhd
      constructor
      · simp [agent_clear, hm]
      · simp [agent_clear, hm, hm0]
  refine ⟨hinv, fun c => rfl,
    fun cfg approval bash responses =>
      run_agent_turn_append_only cfg approval bash responses st, ?_⟩
  obtain ⟨hne, hhd⟩ := hinv
  obtain ⟨m0, tl, hm⟩ : ∃ m0 tl, st.messages = m0 :: tl := by
    cases hx : st.messages with
    | nil => exact absurd hx hne
    | cons a b => exact ⟨a, b, rfl⟩
  have hm0 : m0 = systemMessage prompt := by
    rw [hm] at hhd; simpa using hhd
  simp [agent_clear, hm, hm0]

theorem agent_message_invariants_witness :
    ((agentNew "sys").messages ≠ []
      ∧ (agentNew "sys").messages.head? = some (systemMessage "sys"))
    ∧ (agent_clear (add_user_message (agentNew "sys") "hello")).messages
        = [systemMessage "sys"] := by
  have h1 := agent_message_invariants "sys" (agentNew "sys") Reachable.init
  have h2 := agent_message_invariants "sys"
    (add_user_message (agentNew "sys") "hello")
    (Reachable.user_msg _ _ Reachable.init)
  exact ⟨h1.1, h2.2.2.2⟩

/-- The `tool_use` block the Anthropic adapter builds for a tool call:
id, name and input carried verbatim, no stringification. -/
def toolUseBlock (tc : ToolCall) : ABlock :=
  { emptyABlock with
    block_type := "tool_use"
    id := some tc.id
    name := some tc.name
    input := some tc.input }

/-- The plain text block the Anthropic adapter builds for non-empty
assistant content. -/
def assistantTextBlock (content : String) : ABlock :=
  { emptyABlock with
    block_type := "text"
    text := some content }

theorem jsonToString_ne_empty (v : Json) : jsonToString v ≠ "" := by
  have := printJson_ne_nil v
  simp [jsonToString]
  intro hc
  exact this (by simpa using congrArg String.data hc)

/-- Claim C8: a ToolCall's structured input survives the OpenAI adapter's
stringify-then-parse round trip (same name, structurally equal input); the
Anthropic adapter carries id, name and input verbatim in a `tool_use`
block, so its synthetic matching response decodes to the same call; the
OpenAI argument parser falls back to a plain string on invalid JSON and
never fails. -/
theorem tool_call_adapter_roundtrip (tc : ToolCall) (content : String)
    (cache : Bool) (raw : String) :
    (to_openai_messages [⟨.Assistant, content, none, none, [tc]⟩]
      = [⟨"assistant", content, none,
          [⟨tc.id, "function", ⟨tc.name, jsonToString tc.input⟩⟩]⟩])
    ∧ parse_tool_input (jsonToString tc.input) = tc.input
    ∧ (∃ cr, openai_handle_response .jnull true 200
          ⟨[⟨⟨"assistant", some content,
              [⟨tc.id, "function", ⟨tc.name, jsonToString tc.input⟩⟩]⟩⟩],
            none, none⟩ = .ok cr
        ∧ cr.message.tool_calls = [tc])
    ∧ ((to_anthropic_messages [⟨.Assistant, content, none, none, [tc]⟩] cache).2
        = [⟨"assistant", .blocks
            ((if content = "" then [] else [assistantTextBlock content])
              ++ [toolUseBlock tc])⟩])
    ∧ (∃ cr, anthropic_handle_response .jnull "anthropic" true 200
          ⟨[toolUseBlock tc], none, none⟩ = .ok cr
        ∧ cr.message.tool_calls = [tc])
    ∧ (raw ≠ "" → jsonFromStr raw = none → parse_tool_input raw = .jstr raw) := by
  have hparse : parse_tool_input (jsonToString tc.input) = tc.input := by
    rw [parse_tool_input, if_neg (jsonToString_ne_empty tc.input),
      jsonFromStr_print]
  refine ⟨?_, hparse, ?_, ?_, ?_, ?_⟩
  · simp [to_openai_messages]
  · refine ⟨_, rfl, ?_⟩
    simp [openai_handle_response, hparse]
  · simp only [to_anthropic_messages, lastCacheableIndex]
    by_cases hc : content = "" <;>
      simp [hc, rustTrim, toolUseBlock, assistantTextBlock, emptyABlock]
  · refine ⟨_, rfl, ?_⟩
    simp [anthropic_handle_response, toolUseBlock, emptyABlock]
  · intro h1 h2
    simp [parse_tool_input, h1, h2]

theorem tool_call_adapter_roundtrip_witness :
    parse_tool_input (jsonToString (.jobj [("command", .jstr "ls")]))
      = .jobj [("command", .jstr "ls")]
    ∧ parse_tool_input "not json" = .jstr "not json" := by
  have h := tool_call_adapter_roundtrip
    ⟨"call_1", "bash", .jobj [("command", .jstr "ls")]⟩ "" true "not json"
  exact ⟨h.2.1, h.2.2.2.2.2 (by decide) (by rfl)⟩

/-- Counterexample to claim C9 as stated: the OpenAI adapter copies the
wire `total_tokens` verbatim, so a response reporting prompt 1,
completion 2, total 5 yields a normalized Usage with total 5 ≠ 1 + 2. -/
theorem openai_usage_passthrough_counterexample :
    ∃ cr, openai_handle_response .jnull true 200
        ⟨[⟨⟨"assistant", some "", []⟩⟩], some ⟨1, 2, 5⟩, none⟩ = .ok cr
      ∧ cr.usage = some ⟨1, 2, 5⟩
      ∧ ¬((5 : Int) = 1 + 2) := by
  refine ⟨_, rfl, rfl, by decide⟩

/-- Claim C9 amended: when a successful response reports usage, the
Anthropic adapter computes `total = input + output`, so its normalized
Usage always satisfies total = prompt + completion; the OpenAI adapter
copies the wire's three token counts verbatim, so the sum property holds
exactly when the wire total already equals prompt + completion. -/
theorem usage_normalization (rawReq : Json) (status : Nat) (provider : String)
    (resp : OpenAIResponse) (aresp : AnthropicResponse)
    (u : OpenAIUsage) (au : AnthropicUsage) :
    (resp.error = none → resp.usage = some u →
      ∃ cr, openai_handle_response rawReq true status resp = .ok cr
        ∧ cr.usage = some ⟨u.prompt_tokens, u.completion_tokens, u.total_tokens⟩)
    ∧ (aresp.error = none → aresp.usage = some au →
      ∃ cr, anthropic_handle_response rawReq provider true status aresp = .ok cr
        ∧ cr.usage = some ⟨au.input_tokens, au.output_tokens,
            au.input_tokens + au.output_tokens⟩
        ∧ ∀ us, cr.usage = some us →
            us.total_tokens = us.prompt_tokens + us.completion_tokens) := by
  constructor
  · intro he hu
    cases hr : openai_handle_response rawReq true status resp with
    | error e => simp [openai_handle_response, he] at hr
    | ok cr =>
      simp [openai_handle_response, he] at hr
      refine ⟨cr, rfl, ?_⟩
      rw [← hr]
      simp [hu]
  · intro he hu
    cases hr : anthropic_handle_response rawReq provider true status aresp with
    | error e => simp [anthropic_handle_response, he] at hr
    | ok cr =>
      simp [anthropic_handle_response, he] at hr
      refine ⟨cr, rfl, ?_, ?_⟩
      · rw [← hr]
        simp [hu]
      · intro us hus
        rw [← hr] at hus
        simp [hu] at hus
        simp [← hus]

theorem usage_normalization_witness :
    ∃ cr, anthropic_handle_response .jnull "anthropic" true 200
        ⟨[], some ⟨3, 4⟩, none⟩ = .ok cr
      ∧ cr.usage = some ⟨3, 4, 7⟩ := by
  obtain ⟨cr, hcr, hu, _⟩ := (usage_normalization .jnull 200 "anthropic"
    ⟨[], none, none⟩ ⟨[], some ⟨3, 4⟩, none⟩ ⟨0, 0, 0⟩ ⟨3, 4⟩).2 rfl rfl
  exact ⟨cr, hcr, hu⟩

end MinimalCli
